import Mathlib

/-!
# A model of the adaptive-scheduler RunManager control loop

The repository ships a notebook (`example.ipynb`) that exercises the
adaptive-scheduler library: it constructs a `RunManager` with a scheduler,
a goal predicate, `max_fails_per_job`, `max_simultaneous_jobs`,
`kill_on_error`, a database file, and then starts the run and inspects
`parse_log_files` and the database.  The implementation of the run manager
itself is not part of the repository, so the definitions below are a shallow
embedding of the control loop as the specification describes it: tasks are
mapped onto jobs submitted to a batch scheduler, job liveness is tracked in a
database of job records, failures are retried within bounds, and the run
stops on a global stop condition.

Events model the inputs of one control-loop iteration: an admission attempt,
a liveness poll of the scheduler queue, an observed log line, a goal
evaluation for a task, and an external cancellation request.
-/

set_option maxHeartbeats 1000000

namespace AdaptiveScheduler

/-- Modelled from the spec: the state of one job record,
`state ∈ {Pending, Queued, Running, Done, Failed, Cancelled}`. -/
inductive JobState where
  | Pending
  | Queued
  | Running
  | Done
  | Failed
  | Cancelled
  deriving DecidableEq

/-- Modelled from the spec: per-task controller states
`Unassigned → Submitted → Active → {Completed | Retrying | PermanentlyFailed}`. -/
inductive TaskState where
  | Unassigned
  | Submitted
  | Active
  | Completed
  | Retrying
  | PermanentlyFailed
  deriving DecidableEq

/-- Modelled from the spec: the status the scheduler queue reports for a job
that is present in the live queue. -/
inductive QStatus where
  | queued
  | running
  deriving DecidableEq

/-- Modelled from the spec: a database record
`{job_id, task_index, state, fail_count, last_seen_at}`. -/
structure JobRecord where
  job_id : Nat
  task_index : Nat
  state : JobState
  fail_count : Nat
  last_seen_at : Nat
  deriving DecidableEq

/-- Modelled from the spec: the immutable run configuration
(`max_fails_per_job`, `max_simultaneous_jobs`, the task count and the
`kill_on_error` substring). -/
structure Config where
  total_tasks : Nat
  max_fails_per_job : Nat
  max_simultaneous_jobs : Nat
  kill_on_error : List Char
  deriving DecidableEq

/-- Modelled from the spec: the mutable state of the run manager: the job
database, per-task controller state, per-task fail counts, per-task progress,
a fresh job-id counter, a poll counter used for `last_seen_at`, and the
external-cancellation flag. -/
structure RMState where
  db : List JobRecord
  tasks : Nat → TaskState
  fcs : Nat → Nat
  progress : Nat → Nat
  next_job_id : Nat
  time : Nat
  externalCancel : Bool

/-- The pair of per-task controller maps threaded through one poll. -/
structure Ctrl where
  tasks : Nat → TaskState
  fcs : Nat → Nat

/-- A job record in `{Pending, Queued, Running}` occupies scheduler capacity. -/
def isLive : JobState → Bool
  | .Pending => true
  | .Queued => true
  | .Running => true
  | _ => false

/-- Terminal job states `{Done, Failed, Cancelled}` never revert. -/
def isTerminalJob : JobState → Bool
  | .Done => true
  | .Failed => true
  | .Cancelled => true
  | _ => false

/-- Terminal task states `{Completed, PermanentlyFailed}`. -/
def isTerminalTask : TaskState → Bool
  | .Completed => true
  | .PermanentlyFailed => true
  | _ => false

/-- Modelled from the spec: the valid forward transitions of a job record,
`Pending → Queued → Running → {Done | Failed | Cancelled}`, where a job may
move forward along the chain and a terminal state has no successor. -/
def validNext : JobState → JobState → Bool
  | .Pending, .Queued => true
  | .Pending, .Running => true
  | .Pending, .Done => true
  | .Pending, .Failed => true
  | .Pending, .Cancelled => true
  | .Queued, .Running => true
  | .Queued, .Done => true
  | .Queued, .Failed => true
  | .Queued, .Cancelled => true
  | .Running, .Done => true
  | .Running, .Failed => true
  | .Running, .Cancelled => true
  | _, _ => false

/-- Number of live (capacity-consuming) records in a database. -/
def countLive : List JobRecord → Nat
  | [] => 0
  | r :: rest => (if isLive r.state = true then 1 else 0) + countLive rest

/-- Number of records bound to task `t`. -/
def countTask (t : Nat) : List JobRecord → Nat
  | [] => 0
  | r :: rest => (if r.task_index = t then 1 else 0) + countTask t rest

/-- Number of live records bound to task `t`. -/
def countTaskLive (t : Nat) : List JobRecord → Nat
  | [] => 0
  | r :: rest =>
      (if r.task_index = t ∧ isLive r.state = true then 1 else 0) + countTaskLive t rest

/-- Look a job record up by its `job_id` (first match). -/
def findJob : List JobRecord → Nat → Option JobRecord
  | [], _ => none
  | r :: rest, j => if r.job_id = j then some r else findJob rest j

/-- The status the live queue reports for `job_id` `j`, if present. -/
def qstatusOf (live : List (Nat × QStatus)) (j : Nat) : Option QStatus :=
  match live with
  | [] => none
  | (j', st) :: rest => if j' = j then some st else qstatusOf rest j

/-- A record exits at this poll: it was `Queued`/`Running` but is absent from
the live queue. -/
def exiting (live : List (Nat × QStatus)) (r : JobRecord) : Bool :=
  (decide (r.state = .Queued) || decide (r.state = .Running))
    && (qstatusOf live r.job_id).isNone

/-- Modelled from the spec: boolean check that `needle` starts `haystack`. -/
def leadsWith : List Char → List Char → Bool
  | [], _ => true
  | _ :: _, [] => false
  | a :: as, b :: bs => a == b && leadsWith as bs

/-- Modelled from the spec: substring matching of the `kill_on_error` string
against a log line. -/
def containsSub (needle : List Char) : List Char → Bool
  | [] => leadsWith needle []
  | c :: cs => leadsWith needle (c :: cs) || containsSub needle cs

/-- The numeric value of a decimal digit character. -/
def digitVal (c : Char) : Option Nat :=
  if '0' ≤ c ∧ c ≤ '9' then some (c.toNat - '0'.toNat) else none

/-- Parse a run of decimal digits, failing on any non-digit. -/
def digitsToNatAux : List Char → Nat → Option Nat
  | [], acc => some acc
  | c :: cs, acc =>
      match digitVal c with
      | some d => digitsToNatAux cs (acc * 10 + d)
      | none => none

/-- The structured progress-marker key the log monitor recognises. -/
def markerKey : List Char := ['n', 'p', 'o', 'i', 'n', 't', 's', '=']

/-- Strip a leading key from a line, failing if the key is not a prefix of it. -/
def dropKey : List Char → List Char → Option (List Char)
  | [], rest => some rest
  | _ :: _, [] => none
  | a :: as, b :: bs => if a = b then dropKey as bs else none

/-- Modelled from the spec: total parsing of one log line into a structured
progress marker.  A line parses exactly when it is the marker key followed by
a non-empty run of decimal digits; every other line yields `none` and is
skipped. -/
def parseLine (line : List Char) : Option Nat :=
  match dropKey markerKey line with
  | none => none
  | some [] => none
  | some (c :: cs) => digitsToNatAux (c :: cs) 0

/-- Modelled from the spec: the per-file summary row of `parse_log_files`:
the most recent parsed progress marker of the file, unparsable lines skipped. -/
def lastProgress (f : List (List Char)) : Option Nat :=
  (f.filterMap parseLine).getLast?

/-- Modelled from the spec: `RunManager.parse_log_files` reads the per-job
log files that exist so far and returns one parsed row per file; with no log
files yet (before `log_interval` has elapsed) it returns the empty result. -/
def parse_log_files (files : List (List (List Char))) : List (Option Nat) :=
  files.map lastProgress

/-- Modelled from the spec: the retry policy applied to task `t` on an
unexpected exit.  Completed and permanently-failed tasks are left alone;
otherwise, if `fail_count < max_fails_per_job` the fail count is incremented
and the task is requeued as `Retrying`, else the task is marked
`PermanentlyFailed`. -/
def retryTask (cfg : Config) (acc : Ctrl) (t : Nat) : Ctrl :=
  if acc.tasks t = .Completed ∨ acc.tasks t = .PermanentlyFailed then acc
  else if acc.fcs t < cfg.max_fails_per_job then
    ⟨Function.update acc.tasks t .Retrying, Function.update acc.fcs t (acc.fcs t + 1)⟩
  else { acc with tasks := Function.update acc.tasks t .PermanentlyFailed }

/-- Modelled from the spec: the task-side handling of a job exit observed at
a liveness poll: if the task's completion flag is set the task is marked
`Completed`, otherwise the retry policy is consulted. -/
def exitTaskC (cfg : Config) (doneFlags : List Nat) (t : Nat) (acc : Ctrl) : Ctrl :=
  if acc.tasks t = .PermanentlyFailed then acc
  else if t ∈ doneFlags ∨ acc.tasks t = .Completed then
    { acc with tasks := Function.update acc.tasks t .Completed }
  else if acc.fcs t < cfg.max_fails_per_job then
    ⟨Function.update acc.tasks t .Retrying, Function.update acc.fcs t (acc.fcs t + 1)⟩
  else { acc with tasks := Function.update acc.tasks t .PermanentlyFailed }

/-- A task whose job is seen running moves from `Submitted` to `Active`. -/
def activate (t : Nat) (acc : Ctrl) : Ctrl :=
  if acc.tasks t = .Submitted then
    { acc with tasks := Function.update acc.tasks t .Active }
  else acc

/-- One record's contribution to the task maps during a liveness poll. -/
def pollCtrlOne (cfg : Config) (live : List (Nat × QStatus)) (doneFlags : List Nat)
    (r : JobRecord) (acc : Ctrl) : Ctrl :=
  match qstatusOf live r.job_id with
  | some QStatus.running => if isLive r.state = true then activate r.task_index acc else acc
  | some QStatus.queued => acc
  | none =>
      if r.state = .Queued ∨ r.state = .Running then
        exitTaskC cfg doneFlags r.task_index acc
      else acc

/-- Fold the task-side poll handling over the database. -/
def pollCtrl (cfg : Config) (live : List (Nat × QStatus)) (doneFlags : List Nat) :
    List JobRecord → Ctrl → Ctrl
  | [], acc => acc
  | r :: rest, acc => pollCtrl cfg live doneFlags rest (pollCtrlOne cfg live doneFlags r acc)

/-- Modelled from the spec: the terminal state of a record whose job exited:
`Done` when the task's completion flag is set (or the task already completed),
`Failed` otherwise. -/
def pollExitState (doneFlags : List Nat) (tasks : Nat → TaskState) (t : Nat) : JobState :=
  if tasks t = .PermanentlyFailed then .Failed
  else if t ∈ doneFlags ∨ tasks t = .Completed then .Done
  else .Failed

/-- Modelled from the spec: the record-side effect of one liveness poll:
records present in the live queue move forward to the reported status and
refresh `last_seen_at`; `Queued`/`Running` records absent from the live queue
exit to `Done` or `Failed`; terminal records are untouched. -/
def pollRecord (time : Nat) (live : List (Nat × QStatus)) (doneFlags : List Nat)
    (tasks : Nat → TaskState) (r : JobRecord) : JobRecord :=
  match qstatusOf live r.job_id with
  | some QStatus.queued =>
      if r.state = .Pending then { r with state := .Queued, last_seen_at := time }
      else if r.state = .Queued ∨ r.state = .Running then { r with last_seen_at := time }
      else r
  | some QStatus.running =>
      if r.state = .Pending ∨ r.state = .Queued then
        { r with state := .Running, last_seen_at := time }
      else if r.state = .Running then { r with last_seen_at := time }
      else r
  | none =>
      if r.state = .Queued ∨ r.state = .Running then
        { r with state := pollExitState doneFlags tasks r.task_index }
      else r

/-- Modelled from the spec: one liveness poll of the scheduler queue
(control-loop step 2, with steps 4 and 5's exit handling folded in). -/
def stepPoll (cfg : Config) (s : RMState) (live : List (Nat × QStatus))
    (doneFlags : List Nat) : RMState :=
  let c := pollCtrl cfg live doneFlags s.db ⟨s.tasks, s.fcs⟩
  { s with
    db := s.db.map (pollRecord s.time live doneFlags s.tasks)
    tasks := c.tasks
    fcs := c.fcs
    time := s.time + 1 }

/-- Modelled from the spec: the admission step (control-loop step 1): while
the count of live jobs is below `max_simultaneous_jobs` and an unassigned or
retrying task remains, submit it, record a `Pending` job record, and move the
task to `Submitted`.  A cancelled run admits nothing. -/
def stepSubmit (cfg : Config) (s : RMState) (t : Nat) : RMState :=
  if (s.tasks t = .Unassigned ∨ s.tasks t = .Retrying) ∧
      countLive s.db < cfg.max_simultaneous_jobs ∧
      t < cfg.total_tasks ∧ s.externalCancel = false then
    { s with
      db := s.db ++ [⟨s.next_job_id, t, .Pending, s.fcs t, s.time⟩]
      tasks := Function.update s.tasks t .Submitted
      next_job_id := s.next_job_id + 1 }
  else s

/-- Cancel every still-live record of job `j`. -/
def cancelJobLive (j : Nat) (db : List JobRecord) : List JobRecord :=
  db.map fun r =>
    if r.job_id = j ∧ isLive r.state = true then { r with state := .Cancelled } else r

/-- Cancel every still-live record of task `t` (idle release). -/
def cancelTaskLive (t : Nat) (db : List JobRecord) : List JobRecord :=
  db.map fun r =>
    if r.task_index = t ∧ isLive r.state = true then { r with state := .Cancelled } else r

/-- Modelled from the spec: handling of one observed log line (control-loop
step 3 plus the log monitor's parsing contract).  A line matching
`kill_on_error` for a live job cancels the job immediately and treats the
exit as unexpected (retry policy); otherwise a parsable progress marker
updates the task's progress; an unparsable line is skipped and the state is
unchanged. -/
def stepLog (cfg : Config) (s : RMState) (j : Nat) (line : List Char) : RMState :=
  match findJob s.db j with
  | none => s
  | some r =>
      if isLive r.state = true ∧ containsSub cfg.kill_on_error line = true then
        let c := retryTask cfg ⟨s.tasks, s.fcs⟩ r.task_index
        { s with db := cancelJobLive j s.db, tasks := c.tasks, fcs := c.fcs }
      else
        match parseLine line with
        | some n => { s with progress := Function.update s.progress r.task_index n }
        | none => s

/-- Modelled from the spec: goal evaluation for one task (control-loop
step 5): if the goal is observed true for a task that is not permanently
failed, the task is marked `Completed` and its still-live job is cancelled
(idle release). -/
def stepGoal (s : RMState) (t : Nat) (v : Bool) : RMState :=
  if v = true ∧ s.tasks t ≠ .PermanentlyFailed then
    { s with
      tasks := Function.update s.tasks t .Completed
      db := cancelTaskLive t s.db }
  else s

/-- The environment inputs driving one control-loop action. -/
inductive Event where
  | submit (t : Nat)
  | queuePoll (live : List (Nat × QStatus)) (doneFlags : List Nat)
  | logLine (j : Nat) (line : List Char)
  | goalEval (t : Nat) (v : Bool)
  | cancelRun

/-- Modelled from the spec: one control-loop action of the run manager. -/
def stepEvent (cfg : Config) (s : RMState) : Event → RMState
  | .submit t => stepSubmit cfg s t
  | .queuePoll live doneFlags => stepPoll cfg s live doneFlags
  | .logLine j line => stepLog cfg s j line
  | .goalEval t v => stepGoal s t v
  | .cancelRun => { s with externalCancel := true }

/-- Modelled from the spec: the initial run-manager state: empty database,
zero fail counts, and every task whose goal is already true before any
submission marked `Completed` with zero jobs, all others `Unassigned`. -/
def initState (g0 : Nat → Bool) : RMState :=
  { db := []
    tasks := fun t => if g0 t then .Completed else .Unassigned
    fcs := fun _ => 0
    progress := fun _ => 0
    next_job_id := 0
    time := 0
    externalCancel := false }

/-- Run the control loop over a list of environment events. -/
def runTrace (cfg : Config) (s : RMState) : List Event → RMState
  | [] => s
  | e :: rest => runTrace cfg (stepEvent cfg s e) rest

/-- Number of permanently failed tasks. -/
def countPF (cfg : Config) (s : RMState) : Nat :=
  ((List.range cfg.total_tasks).filter fun t => s.tasks t = .PermanentlyFailed).length

/-- Every task is in a terminal state `{Completed, PermanentlyFailed}`. -/
def allTasksTerminal (cfg : Config) (s : RMState) : Bool :=
  (List.range cfg.total_tasks).all fun t => isTerminalTask (s.tasks t)

/-- Modelled from the spec: the global stop condition (control-loop step 6):
every task terminal, or the permanently-failed count reaches the
`total_tasks * max_fails_per_job` threshold, or external cancellation. -/
def stopCondition (cfg : Config) (s : RMState) : Bool :=
  allTasksTerminal cfg s
    || decide (cfg.total_tasks * cfg.max_fails_per_job ≤ countPF cfg s)
    || s.externalCancel

/-- Modelled from the spec: the control loop itself, consuming environment
events until the global stop condition holds; `none` when the fuel or the
event stream runs out before a stop. -/
def runLoop (cfg : Config) : Nat → RMState → List Event → Option (RMState × List Event)
  | 0, _, _ => none
  | fuel + 1, s, evts =>
      if stopCondition cfg s then some (s, evts)
      else
        match evts with
        | [] => none
        | e :: rest => runLoop cfg fuel (stepEvent cfg s e) rest

/-- Modelled from the spec: re-validation of one loaded record against the
live scheduler queue: a `Queued`/`Running` record absent from the live queue
is marked `Failed`, all other records are kept. -/
def revalidate (live : List (Nat × QStatus)) (r : JobRecord) : JobRecord :=
  if (r.state = .Queued ∨ r.state = .Running) ∧ (qstatusOf live r.job_id).isNone then
    { r with state := .Failed }
  else r

/-- Whether some record of task `t` satisfies `p`. -/
def anyTask (t : Nat) (p : JobRecord → Bool) : List JobRecord → Bool
  | [] => false
  | r :: rest => (decide (r.task_index = t) && p r) || anyTask t p rest

/-- Modelled from the spec: reconstruction of a task's controller state from
a re-validated database: `Completed` if a `Done` record exists, `Submitted`
if a live record remains, `Retrying` if the task had jobs that all ended
(retry candidate), `Unassigned` otherwise. -/
def reconstructTask (db : List JobRecord) (t : Nat) : TaskState :=
  if anyTask t (fun r => decide (r.state = .Done)) db = true then .Completed
  else if anyTask t (fun r => isLive r.state) db = true then .Submitted
  else if anyTask t (fun _ => true) db = true then .Retrying
  else .Unassigned

/-- Reconstruct a task's fail count as the largest recorded one. -/
def reconstructFc (db : List JobRecord) (t : Nat) : Nat :=
  match db with
  | [] => 0
  | r :: rest =>
      if r.task_index = t then Nat.max r.fail_count (reconstructFc rest t)
      else reconstructFc rest t

/-- The largest `job_id` in a database. -/
def maxJobId : List JobRecord → Nat
  | [] => 0
  | r :: rest => Nat.max r.job_id (maxJobId rest)

/-- Modelled from the spec: startup reload of a saved database snapshot:
every `Queued`/`Running` record is re-validated against the live scheduler
queue, records absent from the live queue are marked `Failed` and become
retry candidates, and the run-manager state is reconstructed from the
re-validated records without submitting anything. -/
def loadDatabase (db : List JobRecord) (live : List (Nat × QStatus)) : RMState :=
  let db' := db.map (revalidate live)
  { db := db'
    tasks := fun t => reconstructTask db' t
    fcs := fun t => reconstructFc db' t
    progress := fun _ => 0
    next_job_id := maxJobId db + 1
    time := 0
    externalCancel := false }

/-- The database invariant: ids are below the fresh counter, ids are unique,
each task has at most one live record, and every live record belongs to a
`Submitted` or `Active` task. -/
def Inv (s : RMState) : Prop :=
  (∀ r, r ∈ s.db → r.job_id < s.next_job_id) ∧
  s.db.Pairwise (fun a b => a.job_id ≠ b.job_id) ∧
  (∀ t, countTaskLive t s.db ≤ 1) ∧
  (∀ r, r ∈ s.db → isLive r.state = true →
    s.tasks r.task_index = .Submitted ∨ s.tasks r.task_index = .Active)

/-- Well-formedness of a saved snapshot: unique ids, at most one live record
per task, and no task both done and still live. -/
def DbOk (db : List JobRecord) : Prop :=
  db.Pairwise (fun a b => a.job_id ≠ b.job_id) ∧
  (∀ t, countTaskLive t db ≤ 1) ∧
  (∀ t, ¬(anyTask t (fun r => decide (r.state = .Done)) db = true ∧
          anyTask t (fun r => isLive r.state) db = true))

/-- An observation, at one step, that task `t`'s goal (or completion flag)
is true: either a goal evaluation returning true, or a liveness poll seeing
one of `t`'s jobs exit with the task's completion flag set — in both cases
for a task that has not been permanently failed and abandoned. -/
def observedStep (s : RMState) (e : Event) (t : Nat) : Prop :=
  match e with
  | .goalEval t' v => t' = t ∧ v = true ∧ s.tasks t ≠ .PermanentlyFailed
  | .queuePoll live doneFlags =>
      t ∈ doneFlags ∧ s.tasks t ≠ .PermanentlyFailed ∧
        ∃ r, r ∈ s.db ∧ r.task_index = t ∧ exiting live r = true
  | _ => False

/-- Task `t`'s goal is observed true at some point along a trace. -/
def observedAlong (cfg : Config) (s : RMState) (evts : List Event) (t : Nat) : Prop :=
  match evts with
  | [] => False
  | e :: rest => observedStep s e t ∨ observedAlong cfg (stepEvent cfg s e) rest t

/-- A list of job states is a valid path when each consecutive pair is
either a stutter or a valid forward transition. -/
def okPath : List JobState → Prop
  | [] => True
  | [_] => True
  | a :: b :: rest => (a = b ∨ validNext a b = true) ∧ okPath (b :: rest)

/-- The state of job `j`'s record in the current database, as a zero- or
one-element list. -/
def histHead (s : RMState) (j : Nat) : List JobState :=
  match findJob s.db j with
  | none => []
  | some r => [r.state]

/-- The sequence of states job `j`'s record passes through while the control
loop consumes a trace of events. -/
def stateHistory (cfg : Config) : RMState → List Event → Nat → List JobState
  | s, [], j => histHead s j
  | s, e :: rest, j => histHead s j ++ stateHistory cfg (stepEvent cfg s e) rest j

/-! ## Concrete fixtures used to evaluate the model on small inputs -/

/-- A small concrete configuration: 2 tasks, 1 fail allowed per job,
1 simultaneous job, kill string `"err"`. -/
def cfgA : Config := ⟨2, 1, 1, ['e', 'r', 'r']⟩

/-- The constantly-false initial goal assignment. -/
def gFalse : Nat → Bool := fun _ => false

/-- The constantly-true initial goal assignment. -/
def gTrue : Nat → Bool := fun _ => true

/-- A concrete running job record for task 0. -/
def recA : JobRecord := ⟨0, 0, .Running, 0, 0⟩

/-- A concrete state with one running job for task 0 (capacity full under
`cfgA`). -/
def sA : RMState :=
  { db := [recA]
    tasks := fun _ => .Active
    fcs := fun _ => 0
    progress := fun _ => 0
    next_job_id := 1
    time := 0
    externalCancel := false }

/-- A concrete state whose task 0 is permanently failed, with one failed
record. -/
def sPF : RMState :=
  { db := [⟨0, 0, .Failed, 0, 0⟩]
    tasks := fun _ => .PermanentlyFailed
    fcs := fun _ => 1
    progress := fun _ => 0
    next_job_id := 1
    time := 0
    externalCancel := false }

/-! ## Basic lemmas about the list-level helpers -/

theorem findJob_append_of_found {db : List JobRecord} {j : Nat} {r : JobRecord}
    (h : findJob db j = some r) (l : List JobRecord) :
    findJob (db ++ l) j = some r := by
  induction db with
  | nil => simp [findJob] at h
  | cons a rest ih =>
      simp only [findJob, List.cons_append] at h ⊢
      split at h
      · simp [*]
      · rw [if_neg (by assumption)]
        exact ih h

theorem findJob_map {f : JobRecord → JobRecord}
    (hf : ∀ r, (f r).job_id = r.job_id) (db : List JobRecord) (j : Nat) :
    findJob (db.map f) j = (findJob db j).map f := by
  induction db with
  | nil => simp [findJob]
  | cons a rest ih =>
      simp only [List.map_cons, findJob, hf a]
      split
      · rfl
      · exact ih

theorem countLive_append (l1 l2 : List JobRecord) :
    countLive (l1 ++ l2) = countLive l1 + countLive l2 := by
  induction l1 with
  | nil => simp [countLive]
  | cons a rest ih => simp [countLive, ih]; omega

theorem countLive_map_le {f : JobRecord → JobRecord}
    (hf : ∀ r, isLive (f r).state = true → isLive r.state = true)
    (l : List JobRecord) : countLive (l.map f) ≤ countLive l := by
  induction l with
  | nil => simp [countLive]
  | cons a rest ih =>
      simp only [List.map_cons, countLive]
      have : (if isLive (f a).state = true then 1 else 0) ≤
          (if isLive a.state = true then 1 else 0) := by
        by_cases h : isLive (f a).state = true
        · simp [h, hf a h]
        · rw [if_neg h]
          exact Nat.zero_le _
      omega

theorem countTask_map {f : JobRecord → JobRecord}
    (hf : ∀ r, (f r).task_index = r.task_index) (t : Nat) (l : List JobRecord) :
    countTask t (l.map f) = countTask t l := by
  induction l with
  | nil => simp [countTask]
  | cons a rest ih => simp [countTask, hf a, ih]

theorem countTask_append (t : Nat) (l1 l2 : List JobRecord) :
    countTask t (l1 ++ l2) = countTask t l1 + countTask t l2 := by
  induction l1 with
  | nil => simp [countTask]
  | cons a rest ih => simp [countTask, ih]; omega

theorem countTaskLive_append (t : Nat) (l1 l2 : List JobRecord) :
    countTaskLive t (l1 ++ l2) = countTaskLive t l1 + countTaskLive t l2 := by
  induction l1 with
  | nil => simp [countTaskLive]
  | cons a rest ih => simp [countTaskLive, ih]; omega

theorem countTaskLive_map_le {f : JobRecord → JobRecord}
    (hf : ∀ r, (f r).task_index = r.task_index)
    (hl : ∀ r, isLive (f r).state = true → isLive r.state = true)
    (t : Nat) (l : List JobRecord) : countTaskLive t (l.map f) ≤ countTaskLive t l := by
  induction l with
  | nil => simp [countTaskLive]
  | cons a rest ih =>
      simp only [List.map_cons, countTaskLive]
      have hle : (if (f a).task_index = t ∧ isLive (f a).state = true then 1 else 0) ≤
          (if a.task_index = t ∧ isLive a.state = true then 1 else 0) := by
        by_cases h : (f a).task_index = t ∧ isLive (f a).state = true
        · rw [if_pos h, if_pos ⟨by rw [← hf a]; exact h.1, hl a h.2⟩]
        · rw [if_neg h]
          exact Nat.zero_le _
      omega

/-! ## Field preservation of the per-record transformers -/

theorem pollRecord_job_id (time : Nat) (live : List (Nat × QStatus))
    (doneFlags : List Nat) (tasks : Nat → TaskState) (r : JobRecord) :
    (pollRecord time live doneFlags tasks r).job_id = r.job_id := by
  unfold pollRecord
  split <;> (repeat' split) <;> rfl

theorem pollRecord_task_index (time : Nat) (live : List (Nat × QStatus))
    (doneFlags : List Nat) (tasks : Nat → TaskState) (r : JobRecord) :
    (pollRecord time live doneFlags tasks r).task_index = r.task_index := by
  unfold pollRecord
  split <;> (repeat' split) <;> rfl

theorem not_live_terminal (st : JobState) (h : isLive st = false) :
    isTerminalJob st = true := by
  cases st <;> simp [isLive, isTerminalJob] at h ⊢

theorem pollRecord_terminal_fixed (time : Nat) (live : List (Nat × QStatus))
    (doneFlags : List Nat) (tasks : Nat → TaskState) (r : JobRecord)
    (h : isTerminalJob r.state = true) :
    pollRecord time live doneFlags tasks r = r := by
  have hp : r.state ≠ .Pending := by intro hs; rw [hs] at h; simp [isTerminalJob] at h
  have hq : r.state ≠ .Queued := by intro hs; rw [hs] at h; simp [isTerminalJob] at h
  have hr : r.state ≠ .Running := by intro hs; rw [hs] at h; simp [isTerminalJob] at h
  unfold pollRecord
  split <;> simp [hp, hq, hr]

theorem pollRecord_live (time : Nat) (live : List (Nat × QStatus))
    (doneFlags : List Nat) (tasks : Nat → TaskState) (r : JobRecord)
    (h : isLive (pollRecord time live doneFlags tasks r).state = true) :
    isLive r.state = true := by
  by_cases hl : isLive r.state = true
  · exact hl
  · rw [pollRecord_terminal_fixed time live doneFlags tasks r
      (not_live_terminal _ (by simpa using hl))] at h
    exact h

/-! ## Liveness of the cancel maps -/

theorem cancelJobLive_live_le (j : Nat) (l : List JobRecord) :
    countLive (cancelJobLive j l) ≤ countLive l := by
  apply countLive_map_le
  intro r h
  by_cases hc : r.job_id = j ∧ isLive r.state = true
  · exact hc.2
  · rw [if_neg hc] at h
    exact h

theorem cancelTaskLive_live_le (t : Nat) (l : List JobRecord) :
    countLive (cancelTaskLive t l) ≤ countLive l := by
  apply countLive_map_le
  intro r h
  by_cases hc : r.task_index = t ∧ isLive r.state = true
  · exact hc.2
  · rw [if_neg hc] at h
    exact h

/-! ## C1: the live-job count never exceeds `max_simultaneous_jobs` -/

theorem countLive_stepEvent (cfg : Config) (s : RMState) (e : Event)
    (h : countLive s.db ≤ cfg.max_simultaneous_jobs) :
    countLive (stepEvent cfg s e).db ≤ cfg.max_simultaneous_jobs := by
  cases e with
  | submit t =>
      simp only [stepEvent, stepSubmit]
      split
      · rename_i hc
        simp only [countLive_append]
        have h1 : countLive [(⟨s.next_job_id, t, .Pending, s.fcs t, s.time⟩ : JobRecord)] = 1 := by
          simp [countLive, isLive]
        rw [h1]
        omega
      · exact h
  | queuePoll live doneFlags =>
      simp only [stepEvent, stepPoll]
      exact le_trans (countLive_map_le (pollRecord_live s.time live doneFlags s.tasks) s.db) h
  | logLine j line =>
      simp only [stepEvent, stepLog]
      cases hf : findJob s.db j with
      | none => exact h
      | some r =>
          simp only []
          split
          · exact le_trans (cancelJobLive_live_le j s.db) h
          · split <;> exact h
  | goalEval t v =>
      simp only [stepEvent, stepGoal]
      split
      · exact le_trans (cancelTaskLive_live_le t s.db) h
      · exact h
  | cancelRun => exact h

theorem countLive_runTrace (cfg : Config) (s : RMState) (evts : List Event)
    (h : countLive s.db ≤ cfg.max_simultaneous_jobs) :
    countLive (runTrace cfg s evts).db ≤ cfg.max_simultaneous_jobs := by
  induction evts generalizing s with
  | nil => exact h
  | cons e rest ih => exact ih (stepEvent cfg s e) (countLive_stepEvent cfg s e h)

/-- C1: in every state reachable by the control loop from the initial state,
the number of concurrently live (capacity-consuming) jobs never exceeds
`max_simultaneous_jobs`; moreover the admission step is a no-op whenever the
live-job count has reached `max_simultaneous_jobs`, i.e. it only submits
while `count(Active jobs) < max_simultaneous_jobs`. -/
theorem C1_live_jobs_bounded (cfg : Config) (g0 : Nat → Bool) (evts : List Event) :
    countLive (runTrace cfg (initState g0) evts).db ≤ cfg.max_simultaneous_jobs ∧
    (∀ s t, cfg.max_simultaneous_jobs ≤ countLive s.db →
      stepEvent cfg s (Event.submit t) = s) := by
  constructor
  · apply countLive_runTrace
    simp [initState, countLive]
  · intro s t hfull
    simp only [stepEvent, stepSubmit]
    rw [if_neg]
    rintro ⟨-, hlt, -⟩
    omega

/-- Witness for C1 at a concrete configuration and state: the bound holds
after one admission from the empty initial state, and admission at the full
state `sA` is a no-op. -/
theorem C1_live_jobs_bounded_witness :
    countLive (runTrace cfgA (initState gFalse) [Event.submit 0]).db ≤
      cfgA.max_simultaneous_jobs ∧
    stepEvent cfgA sA (Event.submit 1) = sA :=
  ⟨(C1_live_jobs_bounded cfgA gFalse [Event.submit 0]).1,
   (C1_live_jobs_bounded cfgA gFalse []).2 sA 1 (by decide)⟩

theorem findJob_some_id {db : List JobRecord} {j : Nat} {r : JobRecord}
    (h : findJob db j = some r) : r.job_id = j := by
  induction db with
  | nil => simp [findJob] at h
  | cons a rest ih =>
      simp only [findJob] at h
      split at h
      · cases h
        assumption
      · exact ih h

theorem findJob_cancelJobLive (j : Nat) (db : List JobRecord) :
    findJob (cancelJobLive j db) j = (findJob db j).map fun r =>
      if r.job_id = j ∧ isLive r.state = true
        then { r with state := .Cancelled } else r := by
  unfold cancelJobLive
  exact findJob_map (fun r2 => by split <;> rfl) db j

/-! ## C9: unparsable, non-matching log lines are skipped -/

/-- C9: log parsing is total and non-fatal: for every log line that neither
matches the `kill_on_error` substring nor parses as a progress marker, the
log-handling step leaves the controller state completely unchanged (the line
is skipped), for every state and every job id. -/
theorem C9_unparsable_line_skipped (cfg : Config) (s : RMState) (j : Nat)
    (line : List Char)
    (hk : containsSub cfg.kill_on_error line = false)
    (hp : parseLine line = none) :
    stepEvent cfg s (Event.logLine j line) = s := by
  simp only [stepEvent, stepLog]
  cases hf : findJob s.db j with
  | none => rfl
  | some r =>
      simp only []
      rw [if_neg]
      · simp [hp]
      · rintro ⟨-, hk2⟩
        rw [hk] at hk2
        exact Bool.false_ne_true hk2

/-- Witness for C9: the concrete line `"x"` neither matches `cfgA`'s kill
string `"err"` nor parses, and the step at `sA` leaves the state unchanged. -/
theorem C9_unparsable_line_skipped_witness :
    containsSub cfgA.kill_on_error ['x'] = false ∧ parseLine ['x'] = none ∧
    stepEvent cfgA sA (Event.logLine 0 ['x']) = sA :=
  ⟨by decide, by decide,
   C9_unparsable_line_skipped cfgA sA 0 ['x'] (by decide) (by decide)⟩

/-! ## C10: `parse_log_files` with no log files -/

/-- C10: calling `parse_log_files` before any per-job log files exist
returns the empty result rather than failing, and in general it produces
exactly one parsed row per log file present, so rows appear only once log
files do. -/
theorem C10_parse_log_files_empty :
    parse_log_files [] = [] ∧
    ∀ files, (parse_log_files files).length = files.length := by
  constructor
  · rfl
  · intro files
    simp [parse_log_files]

/-! ## C8: `kill_on_error` lines cancel the job and trigger the retry policy -/

/-- C8: if a log line for job `j` contains the `kill_on_error` substring
while `j`'s record is live and its task is active (neither completed nor
permanently failed), then within that very log-handling step the job is
cancelled, and the exit is treated as unexpected: with `fail_count` still
below `max_fails_per_job` the fail count is incremented and the task is
requeued, otherwise the task is marked permanently failed — the retry
policy. -/
theorem C8_kill_on_error_cancels (cfg : Config) (s : RMState) (j : Nat)
    (line : List Char) (r : JobRecord)
    (hf : findJob s.db j = some r)
    (hl : isLive r.state = true)
    (hk : containsSub cfg.kill_on_error line = true)
    (hc : s.tasks r.task_index ≠ .Completed)
    (hpf : s.tasks r.task_index ≠ .PermanentlyFailed) :
    findJob (stepEvent cfg s (Event.logLine j line)).db j =
      some { r with state := .Cancelled } ∧
    (s.fcs r.task_index < cfg.max_fails_per_job →
      (stepEvent cfg s (Event.logLine j line)).fcs r.task_index = s.fcs r.task_index + 1 ∧
      (stepEvent cfg s (Event.logLine j line)).tasks r.task_index = .Retrying) ∧
    (cfg.max_fails_per_job ≤ s.fcs r.task_index →
      (stepEvent cfg s (Event.logLine j line)).tasks r.task_index = .PermanentlyFailed) := by
  have hid : r.job_id = j := findJob_some_id hf
  have hnc : ¬(s.tasks r.task_index = .Completed ∨
      s.tasks r.task_index = .PermanentlyFailed) := by
    rintro (h | h)
    · exact hc h
    · exact hpf h
  simp only [stepEvent, stepLog, hf]
  rw [if_pos ⟨hl, hk⟩]
  refine ⟨?_, ?_, ?_⟩
  · show findJob (cancelJobLive j s.db) j = some { r with state := .Cancelled }
    rw [findJob_cancelJobLive, hf]
    show some (if r.job_id = j ∧ isLive r.state = true
        then { r with state := JobState.Cancelled } else r) =
      some { r with state := JobState.Cancelled }
    rw [if_pos ⟨hid, hl⟩]
  · intro hlt
    constructor
    · show (retryTask cfg ⟨s.tasks, s.fcs⟩ r.task_index).fcs r.task_index =
        s.fcs r.task_index + 1
      simp only [retryTask, if_neg hnc, if_pos hlt]
      exact Function.update_same _ _ _
    · show (retryTask cfg ⟨s.tasks, s.fcs⟩ r.task_index).tasks r.task_index = .Retrying
      simp only [retryTask, if_neg hnc, if_pos hlt]
      exact Function.update_same _ _ _
  · intro hge
    have hnlt : ¬ s.fcs r.task_index < cfg.max_fails_per_job := by omega
    show (retryTask cfg ⟨s.tasks, s.fcs⟩ r.task_index).tasks r.task_index =
      .PermanentlyFailed
    simp only [retryTask, if_neg hnc, if_neg hnlt]
    exact Function.update_same _ _ _

/-- Witness for C8 at the concrete state `sA`: the line `"err"` matches the
kill string, the running job 0 is cancelled, and task 0 is requeued with its
fail count incremented. -/
theorem C8_kill_on_error_cancels_witness :
    findJob (stepEvent cfgA sA (Event.logLine 0 ['e', 'r', 'r'])).db 0 =
      some { recA with state := .Cancelled } ∧
    (stepEvent cfgA sA (Event.logLine 0 ['e', 'r', 'r'])).fcs 0 = 1 ∧
    (stepEvent cfgA sA (Event.logLine 0 ['e', 'r', 'r'])).tasks 0 = .Retrying := by
  have h := C8_kill_on_error_cancels cfgA sA 0 ['e', 'r', 'r'] recA (by decide)
    (by decide) (by decide) (by decide) (by decide)
  exact ⟨h.1, (h.2.1 (by decide)).1, (h.2.1 (by decide)).2⟩

/-! ## C5: the global stop condition -/

theorem runLoop_stop (cfg : Config) :
    ∀ fuel s evts s' rest, runLoop cfg fuel s evts = some (s', rest) →
      stopCondition cfg s' = true := by
  intro fuel
  induction fuel with
  | zero =>
      intro s evts s' rest h
      simp [runLoop] at h
  | succ n ih =>
      intro s evts s' rest h
      simp only [runLoop] at h
      split at h
      · rename_i hs
        obtain ⟨h1, -⟩ : s = s' ∧ evts = rest := by simpa using h
        rw [← h1]
        exact hs
      · cases evts with
        | nil => simp at h
        | cons e r2 => exact ih _ _ _ _ h

/-- C5: the control loop terminates exactly when the global stop condition
holds: whenever the loop returns, the returned state satisfies the stop
condition (every task in `{Completed, PermanentlyFailed}`, or
`count(PermanentlyFailed) ≥ total_tasks * max_fails_per_job`, or external
cancellation), and conversely a state satisfying it stops the loop
immediately; moreover a single permanently failed task below the global
threshold, with some other task still unfinished and no external
cancellation, does not satisfy the stop condition, so the run is not
aborted. -/
theorem C5_global_stop (cfg : Config) :
    (∀ fuel s evts s' rest, runLoop cfg fuel s evts = some (s', rest) →
      stopCondition cfg s' = true) ∧
    (∀ fuel s evts, stopCondition cfg s = true →
      runLoop cfg (fuel + 1) s evts = some (s, evts)) ∧
    (∀ s t, t < cfg.total_tasks → isTerminalTask (s.tasks t) = false →
      s.externalCancel = false →
      countPF cfg s < cfg.total_tasks * cfg.max_fails_per_job →
      stopCondition cfg s = false) := by
  refine ⟨runLoop_stop cfg, ?_, ?_⟩
  · intro fuel s evts h
    simp [runLoop, h]
  · intro s t ht hnt hec hpf
    have hall : allTasksTerminal cfg s = false := by
      cases hall : allTasksTerminal cfg s with
      | false => rfl
      | true =>
          exfalso
          have := List.all_eq_true.mp hall t (List.mem_range.mpr ht)
          rw [hnt] at this
          exact Bool.false_ne_true this
    simp only [stopCondition, hall, hec, Bool.or_false, Bool.false_or]
    simpa using by omega

/-- Witness for C5: the all-terminal state `sPF` stops the loop at once,
while the working state `sA` (one active task, no permanent failures, no
cancellation) does not satisfy the stop condition. -/
theorem C5_global_stop_witness :
    runLoop cfgA 1 sPF [] = some (sPF, []) ∧ stopCondition cfgA sA = false :=
  ⟨(C5_global_stop cfgA).2.1 0 sPF [] (by decide),
   (C5_global_stop cfgA).2.2 sA 0 (by decide) (by decide) (by decide) (by decide)⟩

/-! ## C4: per-job record state sequences are valid paths -/

theorem validNext_live_cancelled (st : JobState) (h : isLive st = true) :
    validNext st .Cancelled = true := by
  cases st <;> first | rfl | simp [isLive] at h

theorem pollExitState_done_or_failed (df : List Nat) (tasks : Nat → TaskState) (t : Nat) :
    pollExitState df tasks t = .Done ∨ pollExitState df tasks t = .Failed := by
  unfold pollExitState
  split
  · right
    rfl
  · split
    · left
      rfl
    · right
      rfl

theorem pollRecord_state_valid (time : Nat) (live : List (Nat × QStatus))
    (df : List Nat) (tasks : Nat → TaskState) (r : JobRecord) :
    (pollRecord time live df tasks r).state = r.state ∨
      validNext r.state (pollRecord time live df tasks r).state = true := by
  rcases hq : qstatusOf live r.job_id with - | st
  · simp only [pollRecord, hq]
    split
    · rename_i h
      right
      show validNext r.state (pollExitState df tasks r.task_index) = true
      rcases pollExitState_done_or_failed df tasks r.task_index with hd | hd <;>
        rcases h with h | h <;> rw [h, hd] <;> rfl
    · left
      rfl
  · cases st with
    | queued =>
        simp only [pollRecord, hq]
        split
        · rename_i h
          right
          rw [h]
          rfl
        · split
          · left
            rfl
          · left
            rfl
    | running =>
        simp only [pollRecord, hq]
        split
        · rename_i h
          right
          rcases h with h | h <;> rw [h] <;> rfl
        · split
          · left
            rfl
          · left
            rfl

theorem cancel_if_state_valid (r : JobRecord) (c : Prop) [Decidable c]
    (hcl : c → isLive r.state = true) :
    ((if c then { r with state := .Cancelled } else r).state = r.state ∨
      validNext r.state (if c then { r with state := .Cancelled } else r).state = true) ∧
    (isTerminalJob r.state = true →
      (if c then { r with state := .Cancelled } else r) = r) := by
  by_cases h : c
  · rw [if_pos h]
    constructor
    · right
      exact validNext_live_cancelled r.state (hcl h)
    · intro ht
      exfalso
      have := hcl h
      cases hs : r.state <;> rw [hs] at this ht <;>
        simp [isLive, isTerminalJob] at this ht
  · rw [if_neg h]
    exact ⟨Or.inl rfl, fun _ => rfl⟩

theorem stepEvent_record_valid (cfg : Config) (s : RMState) (e : Event) (j : Nat)
    (r : JobRecord) (hf : findJob s.db j = some r) :
    ∃ r', findJob (stepEvent cfg s e).db j = some r' ∧
      (r'.state = r.state ∨ validNext r.state r'.state = true) ∧
      (isTerminalJob r.state = true → r' = r) := by
  cases e with
  | submit t =>
      simp only [stepEvent, stepSubmit]
      split
      · exact ⟨r, findJob_append_of_found hf _, Or.inl rfl, fun _ => rfl⟩
      · exact ⟨r, hf, Or.inl rfl, fun _ => rfl⟩
  | queuePoll live df =>
      refine ⟨pollRecord s.time live df s.tasks r, ?_, ?_, ?_⟩
      · show findJob (s.db.map (pollRecord s.time live df s.tasks)) j = _
        rw [findJob_map (pollRecord_job_id s.time live df s.tasks) s.db j, hf]
        rfl
      · exact pollRecord_state_valid s.time live df s.tasks r
      · exact pollRecord_terminal_fixed s.time live df s.tasks r
  | logLine j2 line =>
      simp only [stepEvent, stepLog]
      cases hf2 : findJob s.db j2 with
      | none => exact ⟨r, hf, Or.inl rfl, fun _ => rfl⟩
      | some r2 =>
          simp only []
          split
          · have hcv := cancel_if_state_valid r (r.job_id = j2 ∧ isLive r.state = true)
              (fun h => h.2)
            refine ⟨_, ?_, hcv.1, hcv.2⟩
            show findJob (cancelJobLive j2 s.db) j = _
            unfold cancelJobLive
            rw [findJob_map (fun rr => by split <;> rfl) s.db j, hf]
            rfl
          · split <;> exact ⟨r, hf, Or.inl rfl, fun _ => rfl⟩
  | goalEval t v =>
      simp only [stepEvent, stepGoal]
      split
      · have hcv := cancel_if_state_valid r (r.task_index = t ∧ isLive r.state = true)
          (fun h => h.2)
        refine ⟨_, ?_, hcv.1, hcv.2⟩
        show findJob (cancelTaskLive t s.db) j = _
        unfold cancelTaskLive
        rw [findJob_map (fun rr => by split <;> rfl) s.db j, hf]
        rfl
      · exact ⟨r, hf, Or.inl rfl, fun _ => rfl⟩
  | cancelRun => exact ⟨r, hf, Or.inl rfl, fun _ => rfl⟩

theorem stateHistory_cons_of_found {cfg : Config} {s : RMState} {j : Nat}
    {r : JobRecord} (evts : List Event) (hf : findJob s.db j = some r) :
    ∃ tl, stateHistory cfg s evts j = r.state :: tl := by
  cases evts with
  | nil => exact ⟨[], by simp [stateHistory, histHead, hf]⟩
  | cons e rest =>
      exact ⟨stateHistory cfg (stepEvent cfg s e) rest j,
        by simp [stateHistory, histHead, hf]⟩

theorem okPath_stateHistory (cfg : Config) :
    ∀ (evts : List Event) (s : RMState) (j : Nat),
      okPath (stateHistory cfg s evts j) := by
  intro evts
  induction evts with
  | nil =>
      intro s j
      simp only [stateHistory, histHead]
      cases findJob s.db j <;> trivial
  | cons e rest ih =>
      intro s j
      simp only [stateHistory]
      cases hf : findJob s.db j with
      | none =>
          simp only [histHead, hf, List.nil_append]
          exact ih _ _
      | some r =>
          simp only [histHead, hf, List.cons_append, List.nil_append]
          obtain ⟨r', hf', hv, -⟩ := stepEvent_record_valid cfg s e j r hf
          obtain ⟨tl, heq⟩ := stateHistory_cons_of_found rest hf'
          rw [heq]
          refine ⟨?_, ?_⟩
          · rcases hv with hv | hv
            · exact Or.inl hv.symm
            · exact Or.inr hv
          · rw [← heq]
            exact ih _ _

/-- C4: for every job id, the sequence of record states observed while the
control loop runs is a valid path through
`Pending → Queued → Running → {Done | Failed | Cancelled}` (each step is a
stutter or a valid forward transition, so transitions are never applied out
of order), and once a record is in a terminal state no step changes it in
any way. -/
theorem C4_job_state_valid_path (cfg : Config) :
    (∀ (s : RMState) (evts : List Event) (j : Nat),
      okPath (stateHistory cfg s evts j)) ∧
    (∀ (s : RMState) (e : Event) (j : Nat) (r : JobRecord),
      findJob s.db j = some r → isTerminalJob r.state = true →
      findJob (stepEvent cfg s e).db j = some r) := by
  refine ⟨fun s evts j => okPath_stateHistory cfg evts s j, ?_⟩
  intro s e j r hf ht
  obtain ⟨r', hf', -, hterm⟩ := stepEvent_record_valid cfg s e j r hf
  rw [hterm ht] at hf'
  exact hf'

/-- Witness for C4: a concrete history of the running job 0 at state `sA`
is a valid path, and the terminal `Failed` record of `sPF` is untouched by a
liveness poll. -/
theorem C4_job_state_valid_path_witness :
    okPath (stateHistory cfgA sA [Event.queuePoll [] [], Event.queuePoll [] []] 0) ∧
    findJob (stepEvent cfgA sPF (Event.queuePoll [] [])).db 0 =
      some ⟨0, 0, .Failed, 0, 0⟩ :=
  ⟨(C4_job_state_valid_path cfgA).1 sA [Event.queuePoll [] [], Event.queuePoll [] []] 0,
   (C4_job_state_valid_path cfgA).2 sPF (Event.queuePoll [] []) 0 ⟨0, 0, .Failed, 0, 0⟩
     (by decide) (by decide)⟩

/-! ## C3: fail counts stay within `max_fails_per_job` -/

theorem fcsBound_retryTask (cfg : Config) (acc : Ctrl) (t : Nat)
    (h : ∀ u, acc.fcs u ≤ cfg.max_fails_per_job) :
    ∀ u, (retryTask cfg acc t).fcs u ≤ cfg.max_fails_per_job := by
  intro u
  unfold retryTask
  split
  · exact h u
  · split
    · rename_i hlt
      show Function.update acc.fcs t (acc.fcs t + 1) u ≤ cfg.max_fails_per_job
      by_cases hu : u = t
      · subst hu
        rw [Function.update_same]
        omega
      · rw [Function.update_noteq hu]
        exact h u
    · exact h u

theorem fcsBound_exitTaskC (cfg : Config) (df : List Nat) (acc : Ctrl) (t : Nat)
    (h : ∀ u, acc.fcs u ≤ cfg.max_fails_per_job) :
    ∀ u, (exitTaskC cfg df t acc).fcs u ≤ cfg.max_fails_per_job := by
  intro u
  unfold exitTaskC
  split
  · exact h u
  · split
    · exact h u
    · split
      · rename_i hlt
        show Function.update acc.fcs t (acc.fcs t + 1) u ≤ cfg.max_fails_per_job
        by_cases hu : u = t
        · subst hu
          rw [Function.update_same]
          omega
        · rw [Function.update_noteq hu]
          exact h u
      · exact h u

theorem activate_fcs (t : Nat) (acc : Ctrl) : (activate t acc).fcs = acc.fcs := by
  unfold activate
  split <;> rfl

theorem fcsBound_pollCtrlOne (cfg : Config) (live : List (Nat × QStatus))
    (df : List Nat) (r : JobRecord) (acc : Ctrl)
    (h : ∀ u, acc.fcs u ≤ cfg.max_fails_per_job) :
    ∀ u, (pollCtrlOne cfg live df r acc).fcs u ≤ cfg.max_fails_per_job := by
  unfold pollCtrlOne
  split
  · split
    · rw [activate_fcs]
      exact h
    · exact h
  · exact h
  · split
    · exact fcsBound_exitTaskC cfg df acc r.task_index h
    · exact h

theorem fcsBound_pollCtrl (cfg : Config) (live : List (Nat × QStatus))
    (df : List Nat) :
    ∀ (l : List JobRecord) (acc : Ctrl),
      (∀ u, acc.fcs u ≤ cfg.max_fails_per_job) →
      ∀ u, (pollCtrl cfg live df l acc).fcs u ≤ cfg.max_fails_per_job := by
  intro l
  induction l with
  | nil => intro acc h; exact h
  | cons r rest ih =>
      intro acc h
      exact ih _ (fcsBound_pollCtrlOne cfg live df r acc h)

theorem fcsBound_stepEvent (cfg : Config) (s : RMState) (e : Event)
    (h : ∀ u, s.fcs u ≤ cfg.max_fails_per_job) :
    ∀ u, (stepEvent cfg s e).fcs u ≤ cfg.max_fails_per_job := by
  cases e with
  | submit t =>
      simp only [stepEvent, stepSubmit]
      split <;> exact h
  | queuePoll live df =>
      simp only [stepEvent, stepPoll]
      exact fcsBound_pollCtrl cfg live df s.db ⟨s.tasks, s.fcs⟩ h
  | logLine j line =>
      simp only [stepEvent, stepLog]
      cases hf : findJob s.db j with
      | none => exact h
      | some r =>
          simp only []
          split
          · exact fcsBound_retryTask cfg ⟨s.tasks, s.fcs⟩ r.task_index h
          · split <;> exact h
  | goalEval t v =>
      simp only [stepEvent, stepGoal]
      split <;> exact h
  | cancelRun => exact h

theorem fcsBound_runTrace (cfg : Config) (s : RMState) (evts : List Event)
    (h : ∀ u, s.fcs u ≤ cfg.max_fails_per_job) :
    ∀ u, (runTrace cfg s evts).fcs u ≤ cfg.max_fails_per_job := by
  induction evts generalizing s with
  | nil => exact h
  | cons e rest ih => exact ih _ (fcsBound_stepEvent cfg s e h)

/-! PermanentlyFailed is absorbing and permanently failed tasks get no new
records. -/

theorem retryTask_PF (cfg : Config) (acc : Ctrl) (t t2 : Nat)
    (h : acc.tasks t = .PermanentlyFailed) :
    (retryTask cfg acc t2).tasks t = .PermanentlyFailed := by
  have hne : ∀ st : TaskState,
      ¬(acc.tasks t2 = .Completed ∨ acc.tasks t2 = .PermanentlyFailed) → t ≠ t2 := by
    intro _ hg ht2
    exact hg (Or.inr (ht2 ▸ h))
  unfold retryTask
  split
  · exact h
  · rename_i hg
    split
    · show Function.update acc.tasks t2 .Retrying t = .PermanentlyFailed
      rw [Function.update_noteq (hne .Unassigned hg)]
      exact h
    · show Function.update acc.tasks t2 .PermanentlyFailed t = .PermanentlyFailed
      by_cases hu : t = t2
      · subst hu
        rw [Function.update_same]
      · rw [Function.update_noteq hu]
        exact h

theorem exitTaskC_PF (cfg : Config) (df : List Nat) (acc : Ctrl) (t t2 : Nat)
    (h : acc.tasks t = .PermanentlyFailed) :
    (exitTaskC cfg df t2 acc).tasks t = .PermanentlyFailed := by
  have hne : ¬(acc.tasks t2 = .PermanentlyFailed) → t ≠ t2 := by
    intro hg ht2
    exact hg (ht2 ▸ h)
  unfold exitTaskC
  split
  · exact h
  · rename_i hg
    split
    · show Function.update acc.tasks t2 .Completed t = .PermanentlyFailed
      rw [Function.update_noteq (hne hg)]
      exact h
    · split
      · show Function.update acc.tasks t2 .Retrying t = .PermanentlyFailed
        rw [Function.update_noteq (hne hg)]
        exact h
      · show Function.update acc.tasks t2 .PermanentlyFailed t = .PermanentlyFailed
        by_cases hu : t = t2
        · subst hu
          rw [Function.update_same]
        · rw [Function.update_noteq hu]
          exact h

theorem activate_PF (t t2 : Nat) (acc : Ctrl)
    (h : acc.tasks t = .PermanentlyFailed) :
    (activate t2 acc).tasks t = .PermanentlyFailed := by
  unfold activate
  split
  · rename_i hs
    show Function.update acc.tasks t2 .Active t = .PermanentlyFailed
    have hne : t ≠ t2 := by
      intro ht2
      rw [ht2, hs] at h
      exact TaskState.noConfusion h
    rw [Function.update_noteq hne]
    exact h
  · exact h

theorem pollCtrl_PF (cfg : Config) (live : List (Nat × QStatus)) (df : List Nat)
    (t : Nat) :
    ∀ (l : List JobRecord) (acc : Ctrl), acc.tasks t = .PermanentlyFailed →
      (pollCtrl cfg live df l acc).tasks t = .PermanentlyFailed := by
  intro l
  induction l with
  | nil => intro acc h; exact h
  | cons r rest ih =>
      intro acc h
      apply ih
      unfold pollCtrlOne
      split
      · split
        · exact activate_PF t r.task_index acc h
        · exact h
      · exact h
      · split
        · exact exitTaskC_PF cfg df acc t r.task_index h
        · exact h

theorem stepEvent_PF (cfg : Config) (s : RMState) (e : Event) (t : Nat)
    (h : s.tasks t = .PermanentlyFailed) :
    (stepEvent cfg s e).tasks t = .PermanentlyFailed ∧
    countTask t (stepEvent cfg s e).db = countTask t s.db := by
  cases e with
  | submit t2 =>
      simp only [stepEvent, stepSubmit]
      split
      · rename_i hg
        have hne : t ≠ t2 := by
          intro ht2
          subst ht2
          rcases hg.1 with h2 | h2 <;> rw [h] at h2 <;> exact TaskState.noConfusion h2
        constructor
        · show Function.update s.tasks t2 .Submitted t = .PermanentlyFailed
          rw [Function.update_noteq hne]
          exact h
        · show countTask t (s.db ++ [⟨s.next_job_id, t2, .Pending, s.fcs t2, s.time⟩]) =
            countTask t s.db
          rw [countTask_append]
          simp [countTask, Ne.symm hne]
      · exact ⟨h, rfl⟩
  | queuePoll live df =>
      refine ⟨pollCtrl_PF cfg live df t s.db ⟨s.tasks, s.fcs⟩ h, ?_⟩
      show countTask t (s.db.map (pollRecord s.time live df s.tasks)) = countTask t s.db
      exact countTask_map (pollRecord_task_index s.time live df s.tasks) t s.db
  | logLine j line =>
      simp only [stepEvent, stepLog]
      cases hf : findJob s.db j with
      | none => exact ⟨h, rfl⟩
      | some r =>
          simp only []
          split
          · constructor
            · exact retryTask_PF cfg ⟨s.tasks, s.fcs⟩ t r.task_index h
            · show countTask t (cancelJobLive j s.db) = countTask t s.db
              unfold cancelJobLive
              exact countTask_map (fun rr => by split <;> rfl) t s.db
          · split <;> exact ⟨h, rfl⟩
  | goalEval t2 v =>
      simp only [stepEvent, stepGoal]
      split
      · rename_i hg
        have hne : t ≠ t2 := by
          intro ht2
          subst ht2
          exact hg.2 h
        constructor
        · show Function.update s.tasks t2 .Completed t = .PermanentlyFailed
          rw [Function.update_noteq hne]
          exact h
        · show countTask t (cancelTaskLive t2 s.db) = countTask t s.db
          unfold cancelTaskLive
          exact countTask_map (fun rr => by split <;> rfl) t s.db
      · exact ⟨h, rfl⟩
  | cancelRun => exact ⟨h, rfl⟩

/-- C3: along every run from the initial state, a task's `fail_count` never
exceeds `max_fails_per_job`; the retry policy applied on an unexpected exit
requeues the task (as `Retrying`, incrementing its fail count) exactly when
`fail_count < max_fails_per_job` and otherwise marks it `PermanentlyFailed`
without touching the count; and a permanently failed task stays permanently
failed under every step and never receives another job record (it is never
resubmitted). -/
theorem C3_fail_count_bounded (cfg : Config) (g0 : Nat → Bool) (evts : List Event)
    (t : Nat) :
    (runTrace cfg (initState g0) evts).fcs t ≤ cfg.max_fails_per_job ∧
    (∀ acc : Ctrl, acc.tasks t ≠ .Completed → acc.tasks t ≠ .PermanentlyFailed →
      (acc.fcs t < cfg.max_fails_per_job →
        (retryTask cfg acc t).tasks t = .Retrying ∧
        (retryTask cfg acc t).fcs t = acc.fcs t + 1) ∧
      (cfg.max_fails_per_job ≤ acc.fcs t →
        (retryTask cfg acc t).tasks t = .PermanentlyFailed ∧
        (retryTask cfg acc t).fcs t = acc.fcs t)) ∧
    (∀ (s : RMState) (e : Event), s.tasks t = .PermanentlyFailed →
      (stepEvent cfg s e).tasks t = .PermanentlyFailed ∧
      countTask t (stepEvent cfg s e).db = countTask t s.db) := by
  refine ⟨?_, ?_, fun s e h => stepEvent_PF cfg s e t h⟩
  · apply fcsBound_runTrace
    intro u
    show 0 ≤ cfg.max_fails_per_job
    exact Nat.zero_le _
  · intro acc hc hpf
    have hnc : ¬(acc.tasks t = .Completed ∨ acc.tasks t = .PermanentlyFailed) := by
      rintro (h | h)
      · exact hc h
      · exact hpf h
    constructor
    · intro hlt
      unfold retryTask
      rw [if_neg hnc, if_pos hlt]
      exact ⟨Function.update_same _ _ _, Function.update_same _ _ _⟩
    · intro hge
      unfold retryTask
      rw [if_neg hnc, if_neg (by omega)]
      exact ⟨Function.update_same _ _ _, rfl⟩

/-- Witness for C3 at concrete inputs: the initial fail count is within the
bound, the retry policy at the live state `sA` requeues task 0 with an
incremented count, and the permanently failed state `sPF` is absorbing. -/
theorem C3_fail_count_bounded_witness :
    (runTrace cfgA (initState gFalse) []).fcs 0 ≤ cfgA.max_fails_per_job ∧
    (retryTask cfgA ⟨sA.tasks, sA.fcs⟩ 0).tasks 0 = .Retrying ∧
    (stepEvent cfgA sPF Event.cancelRun).tasks 0 = .PermanentlyFailed := by
  have h := C3_fail_count_bounded cfgA gFalse [] 0
  exact ⟨h.1,
    ((h.2.1 ⟨sA.tasks, sA.fcs⟩ (by decide) (by decide)).1 (by decide)).1,
    (h.2.2 sPF Event.cancelRun (by decide)).1⟩

/-! ## C2: Completed exactly when the goal is observed true -/

theorem exists_mem_cons {α : Type} (a : α) (l : List α) (P : α → Prop) :
    (∃ r, r ∈ a :: l ∧ P r) ↔ (P a ∨ ∃ r, r ∈ l ∧ P r) := by
  constructor
  · rintro ⟨r, hr, hp⟩
    rcases List.mem_cons.mp hr with h | h
    · subst h
      exact Or.inl hp
    · exact Or.inr ⟨r, h, hp⟩
  · rintro (h | ⟨r, hr, hp⟩)
    · exact ⟨a, List.mem_cons_self a l, h⟩
    · exact ⟨r, List.mem_cons_of_mem a hr, hp⟩

theorem activate_C_iff (t t2 : Nat) (acc : Ctrl) :
    (activate t2 acc).tasks t = .Completed ↔ acc.tasks t = .Completed := by
  unfold activate
  split
  · rename_i hs
    show Function.update acc.tasks t2 .Active t = .Completed ↔ _
    by_cases ht : t = t2
    · subst ht
      rw [Function.update_same, hs]
      simp
    · rw [Function.update_noteq ht]
  · exact Iff.rfl

theorem activate_PF_iff (t t2 : Nat) (acc : Ctrl) :
    (activate t2 acc).tasks t = .PermanentlyFailed ↔
      acc.tasks t = .PermanentlyFailed := by
  unfold activate
  split
  · rename_i hs
    show Function.update acc.tasks t2 .Active t = .PermanentlyFailed ↔ _
    by_cases ht : t = t2
    · subst ht
      rw [Function.update_same, hs]
      simp
    · rw [Function.update_noteq ht]
  · exact Iff.rfl

theorem exitTaskC_tasks_noteq (cfg : Config) (df : List Nat) (t2 : Nat)
    (acc : Ctrl) (t : Nat) (h : t ≠ t2) :
    (exitTaskC cfg df t2 acc).tasks t = acc.tasks t := by
  unfold exitTaskC
  split
  · rfl
  · split
    · exact Function.update_noteq h _ _
    · split
      · exact Function.update_noteq h _ _
      · exact Function.update_noteq h _ _

theorem exitTaskC_tasks_self (cfg : Config) (df : List Nat) (t : Nat) (acc : Ctrl) :
    (exitTaskC cfg df t acc).tasks t =
      (if acc.tasks t = .PermanentlyFailed then acc.tasks t
       else if t ∈ df ∨ acc.tasks t = .Completed then .Completed
       else if acc.fcs t < cfg.max_fails_per_job then .Retrying
       else .PermanentlyFailed) := by
  unfold exitTaskC
  split
  · rfl
  · split
    · exact Function.update_same _ _ _
    · split
      · exact Function.update_same _ _ _
      · exact Function.update_same _ _ _

theorem pollCtrl_completed_iff (cfg : Config) (live : List (Nat × QStatus))
    (df : List Nat) :
    ∀ (l : List JobRecord) (acc : Ctrl) (t : Nat),
      (pollCtrl cfg live df l acc).tasks t = .Completed ↔
        (acc.tasks t = .Completed ∨
          ((∃ r, r ∈ l ∧ r.task_index = t ∧ exiting live r = true) ∧ t ∈ df ∧
            acc.tasks t ≠ .PermanentlyFailed)) := by
  intro l
  induction l with
  | nil =>
      intro acc t
      simp [pollCtrl]
  | cons r rest ih =>
      intro acc t
      show (pollCtrl cfg live df rest (pollCtrlOne cfg live df r acc)).tasks t = _ ↔ _
      rw [ih (pollCtrlOne cfg live df r acc) t,
        exists_mem_cons r rest (fun r2 => r2.task_index = t ∧ exiting live r2 = true)]
      rcases hq : qstatusOf live r.job_id with - | st
      · -- the job is absent from the live queue
        by_cases hQR : r.state = .Queued ∨ r.state = .Running
        · have hone : pollCtrlOne cfg live df r acc = exitTaskC cfg df r.task_index acc := by
            unfold pollCtrlOne
            rw [hq, if_pos hQR]
          have hex : exiting live r = true := by
            unfold exiting
            rw [hq]
            rcases hQR with h | h <;> simp [h]
          rw [hone]
          by_cases hrt : r.task_index = t
          · subst hrt
            by_cases hPF : acc.tasks r.task_index = .PermanentlyFailed
            · have h1 : exitTaskC cfg df r.task_index acc = acc := by
                unfold exitTaskC
                rw [if_pos hPF]
              rw [h1]
              tauto
            · by_cases hdc : r.task_index ∈ df ∨ acc.tasks r.task_index = .Completed
              · have h1 : (exitTaskC cfg df r.task_index acc).tasks r.task_index =
                    .Completed := by
                  rw [exitTaskC_tasks_self, if_neg hPF, if_pos hdc]
                constructor
                · intro _
                  rcases hdc with hdf | hC2
                  · exact Or.inr ⟨Or.inl ⟨rfl, hex⟩, hdf, hPF⟩
                  · exact Or.inl hC2
                · intro _
                  exact Or.inl h1
              · have hdf : r.task_index ∉ df := fun h => hdc (Or.inl h)
                have hCne : acc.tasks r.task_index ≠ .Completed :=
                  fun h => hdc (Or.inr h)
                have h1 : (exitTaskC cfg df r.task_index acc).tasks r.task_index ≠
                    .Completed := by
                  rw [exitTaskC_tasks_self, if_neg hPF, if_neg hdc]
                  split <;> simp
                constructor
                · rintro (h | ⟨-, hdf2, -⟩)
                  · exact absurd h h1
                  · exact absurd hdf2 hdf
                · rintro (h | ⟨-, hdf2, -⟩)
                  · exact absurd h hCne
                  · exact absurd hdf2 hdf
          · rw [exitTaskC_tasks_noteq cfg df r.task_index acc t (Ne.symm hrt)]
            have hPr : ¬(r.task_index = t ∧ exiting live r = true) := by
              rintro ⟨h, -⟩
              exact hrt h
            tauto
        · have hone : pollCtrlOne cfg live df r acc = acc := by
            unfold pollCtrlOne
            rw [hq, if_neg hQR]
          have hPr : ¬(r.task_index = t ∧ exiting live r = true) := by
            rintro ⟨-, hx⟩
            unfold exiting at hx
            rw [hq] at hx
            rcases Bool.and_eq_true_iff.mp hx with ⟨ho, -⟩
            rcases Bool.or_eq_true_iff.mp ho with h | h
            · exact hQR (Or.inl (of_decide_eq_true h))
            · exact hQR (Or.inr (of_decide_eq_true h))
          rw [hone]
          tauto
      · -- the job is still in the live queue: no exit
        have hPr : ¬(r.task_index = t ∧ exiting live r = true) := by
          rintro ⟨-, hx⟩
          unfold exiting at hx
          rw [hq] at hx
          rcases Bool.and_eq_true_iff.mp hx with ⟨-, ho⟩
          simp [Option.isNone] at ho
        cases st with
        | queued =>
            have hone : pollCtrlOne cfg live df r acc = acc := by
              unfold pollCtrlOne
              rw [hq]
            rw [hone]
            tauto
        | running =>
            by_cases hlv : isLive r.state = true
            · have hone : pollCtrlOne cfg live df r acc = activate r.task_index acc := by
                unfold pollCtrlOne
                rw [hq, if_pos hlv]
              rw [hone, activate_C_iff t r.task_index acc]
              simp only [ne_eq]
              rw [activate_PF_iff t r.task_index acc]
              tauto
            · have hone : pollCtrlOne cfg live df r acc = acc := by
                unfold pollCtrlOne
                rw [hq, if_neg hlv]
              rw [hone]
              tauto

theorem retryTask_C_iff (cfg : Config) (acc : Ctrl) (t2 t : Nat) :
    (retryTask cfg acc t2).tasks t = .Completed ↔ acc.tasks t = .Completed := by
  unfold retryTask
  split
  · exact Iff.rfl
  · rename_i hg
    split
    · show Function.update acc.tasks t2 .Retrying t = .Completed ↔ _
      by_cases ht : t = t2
      · subst ht
        rw [Function.update_same]
        constructor
        · intro h
          exact TaskState.noConfusion h
        · intro h
          exact absurd (Or.inl h) hg
      · rw [Function.update_noteq ht]
    · show Function.update acc.tasks t2 .PermanentlyFailed t = .Completed ↔ _
      by_cases ht : t = t2
      · subst ht
        rw [Function.update_same]
        constructor
        · intro h
          exact TaskState.noConfusion h
        · intro h
          exact absurd (Or.inl h) hg
      · rw [Function.update_noteq ht]

theorem stepEvent_completed_iff (cfg : Config) (s : RMState) (e : Event) (t : Nat) :
    (stepEvent cfg s e).tasks t = .Completed ↔
      (s.tasks t = .Completed ∨ observedStep s e t) := by
  cases e with
  | submit t2 =>
      show (stepSubmit cfg s t2).tasks t = _ ↔ _
      unfold stepSubmit
      simp only [observedStep, or_false]
      split
      · rename_i hg
        show Function.update s.tasks t2 .Submitted t = _ ↔ _
        by_cases ht : t = t2
        · subst ht
          rw [Function.update_same]
          constructor
          · intro h
            exact TaskState.noConfusion h
          · intro h
            rcases hg.1 with h2 | h2 <;> rw [h] at h2 <;> exact TaskState.noConfusion h2
        · rw [Function.update_noteq ht]
      · exact Iff.rfl
  | queuePoll live df =>
      show (pollCtrl cfg live df s.db ⟨s.tasks, s.fcs⟩).tasks t = _ ↔ _
      rw [pollCtrl_completed_iff cfg live df s.db ⟨s.tasks, s.fcs⟩ t]
      simp only [observedStep]
      tauto
  | logLine j line =>
      show (stepLog cfg s j line).tasks t = _ ↔ _
      unfold stepLog
      simp only [observedStep, or_false]
      cases hf : findJob s.db j with
      | none => exact Iff.rfl
      | some r =>
          simp only []
          split
          · exact retryTask_C_iff cfg ⟨s.tasks, s.fcs⟩ r.task_index t
          · split <;> exact Iff.rfl
  | goalEval t2 v =>
      show (stepGoal s t2 v).tasks t = _ ↔ _
      unfold stepGoal
      simp only [observedStep]
      split
      · rename_i hg
        show Function.update s.tasks t2 .Completed t = _ ↔ _
        by_cases ht : t = t2
        · subst ht
          rw [Function.update_same]
          constructor
          · intro _
            exact Or.inr ⟨rfl, hg.1, hg.2⟩
          · intro _
            rfl
        · rw [Function.update_noteq ht]
          constructor
          · exact Or.inl
          · rintro (h | ⟨h2, -, -⟩)
            · exact h
            · exact absurd h2.symm ht
      · rename_i hg
        constructor
        · exact Or.inl
        · rintro (h | ⟨h2, hv, hPF⟩)
          · exact h
          · exact absurd ⟨hv, by rw [h2]; exact hPF⟩ hg
  | cancelRun =>
      simp only [stepEvent, observedStep, or_false]

theorem countTask_stepEvent_of_not_admissible (cfg : Config) (s : RMState)
    (e : Event) (t : Nat)
    (h1 : s.tasks t ≠ .Unassigned) (h2 : s.tasks t ≠ .Retrying) :
    countTask t (stepEvent cfg s e).db = countTask t s.db := by
  cases e with
  | submit t2 =>
      simp only [stepEvent, stepSubmit]
      split
      · rename_i hg
        have hne : t2 ≠ t := by
          intro ht2
          subst ht2
          rcases hg.1 with h | h
          · exact h1 h
          · exact h2 h
        show countTask t (s.db ++ [⟨s.next_job_id, t2, .Pending, s.fcs t2, s.time⟩]) = _
        rw [countTask_append]
        simp [countTask, hne]
      · rfl
  | queuePoll live df =>
      show countTask t (s.db.map (pollRecord s.time live df s.tasks)) = _
      exact countTask_map (pollRecord_task_index s.time live df s.tasks) t s.db
  | logLine j line =>
      simp only [stepEvent, stepLog]
      cases hf : findJob s.db j with
      | none => rfl
      | some r =>
          simp only []
          split
          · show countTask t (cancelJobLive j s.db) = _
            unfold cancelJobLive
            exact countTask_map (fun rr => by split <;> rfl) t s.db
          · split <;> rfl
  | goalEval t2 v =>
      simp only [stepEvent, stepGoal]
      split
      · show countTask t (cancelTaskLive t2 s.db) = _
        unfold cancelTaskLive
        exact countTask_map (fun rr => by split <;> rfl) t s.db
      · rfl
  | cancelRun => rfl

theorem completed_zero_jobs_step (cfg : Config) (s : RMState) (e : Event) (t : Nat)
    (hC : s.tasks t = .Completed) (h0 : countTask t s.db = 0) :
    (stepEvent cfg s e).tasks t = .Completed ∧
      countTask t (stepEvent cfg s e).db = 0 := by
  refine ⟨(stepEvent_completed_iff cfg s e t).mpr (Or.inl hC), ?_⟩
  rw [countTask_stepEvent_of_not_admissible cfg s e t (by rw [hC]; simp)
    (by rw [hC]; simp)]
  exact h0

theorem completed_zero_jobs_trace (cfg : Config) :
    ∀ (evts : List Event) (s : RMState) (t : Nat),
      s.tasks t = .Completed → countTask t s.db = 0 →
      (runTrace cfg s evts).tasks t = .Completed ∧
        countTask t (runTrace cfg s evts).db = 0 := by
  intro evts
  induction evts with
  | nil => intro s t hC h0; exact ⟨hC, h0⟩
  | cons e rest ih =>
      intro s t hC h0
      obtain ⟨hC2, h02⟩ := completed_zero_jobs_step cfg s e t hC h0
      exact ih _ t hC2 h02

theorem runTrace_completed_iff (cfg : Config) :
    ∀ (evts : List Event) (s : RMState) (t : Nat),
      (runTrace cfg s evts).tasks t = .Completed ↔
        (s.tasks t = .Completed ∨ observedAlong cfg s evts t) := by
  intro evts
  induction evts with
  | nil =>
      intro s t
      simp [runTrace, observedAlong]
  | cons e rest ih =>
      intro s t
      show (runTrace cfg (stepEvent cfg s e) rest).tasks t = _ ↔ _
      rw [ih (stepEvent cfg s e) t, stepEvent_completed_iff cfg s e t]
      show _ ↔ _ ∨ (observedStep s e t ∨ observedAlong cfg (stepEvent cfg s e) rest t)
      tauto

/-- C2: a task is `Completed` after a run exactly when its goal was already
true before any submission (`g0`) or the goal (equivalently, the task's
completion flag at a job exit) was observed true at some point along the
run; and a task whose goal was true initially ends the run with zero job
records — it is completed with zero submissions. -/
theorem C2_completed_iff_goal_observed (cfg : Config) (g0 : Nat → Bool)
    (evts : List Event) (t : Nat) :
    ((runTrace cfg (initState g0) evts).tasks t = .Completed ↔
      (g0 t = true ∨ observedAlong cfg (initState g0) evts t)) ∧
    (g0 t = true → countTask t (runTrace cfg (initState g0) evts).db = 0) := by
  have hinit : (initState g0).tasks t = .Completed ↔ g0 t = true := by
    by_cases hg : g0 t <;> simp [initState, hg]
  constructor
  · rw [runTrace_completed_iff cfg evts (initState g0) t, hinit]
  · intro hg
    exact (completed_zero_jobs_trace cfg evts (initState g0) t (hinit.mpr hg) rfl).2

/-- Witness for C2 at a concrete input: with the goal already true for every
task and an empty trace, task 0 is `Completed` with zero job records. -/
theorem C2_completed_iff_goal_observed_witness :
    ((runTrace cfgA (initState gTrue) []).tasks 0 = .Completed ↔
      (gTrue 0 = true ∨ observedAlong cfgA (initState gTrue) [] 0)) ∧
    countTask 0 (runTrace cfgA (initState gTrue) []).db = 0 := by
  have h := C2_completed_iff_goal_observed cfgA gTrue [] 0
  exact ⟨h.1, h.2 rfl⟩

/-! ## C6: the database invariant -/

theorem anyTask_iff (t : Nat) (p : JobRecord → Bool) (l : List JobRecord) :
    anyTask t p l = true ↔ ∃ r, r ∈ l ∧ r.task_index = t ∧ p r = true := by
  induction l with
  | nil => simp [anyTask]
  | cons a rest ih =>
      rw [exists_mem_cons a rest (fun r => r.task_index = t ∧ p r = true)]
      unfold anyTask
      rw [Bool.or_eq_true_iff, ih, Bool.and_eq_true_iff]
      constructor
      · rintro (⟨h1, h2⟩ | h)
        · exact Or.inl ⟨of_decide_eq_true h1, h2⟩
        · exact Or.inr h
      · rintro (⟨h1, h2⟩ | h)
        · exact Or.inl ⟨decide_eq_true h1, h2⟩
        · exact Or.inr h

theorem countTaskLive_pos_of_mem {r : JobRecord} {l : List JobRecord} {t : Nat}
    (hm : r ∈ l) (ht : r.task_index = t) (hl : isLive r.state = true) :
    1 ≤ countTaskLive t l := by
  induction l with
  | nil => simp at hm
  | cons a rest ih =>
      unfold countTaskLive
      rcases List.mem_cons.mp hm with h | h
      · subst h
        rw [if_pos ⟨ht, hl⟩]
        omega
      · have := ih h
        omega

theorem two_le_countTaskLive {r1 r2 : JobRecord} {l : List JobRecord} {t : Nat}
    (h1 : r1 ∈ l) (h2 : r2 ∈ l) (hne : r1 ≠ r2)
    (ht1 : r1.task_index = t) (hl1 : isLive r1.state = true)
    (ht2 : r2.task_index = t) (hl2 : isLive r2.state = true) :
    2 ≤ countTaskLive t l := by
  induction l with
  | nil => simp at h1
  | cons a rest ih =>
      unfold countTaskLive
      rcases List.mem_cons.mp h1 with ha1 | ha1
      · subst ha1
        have hm2 : r2 ∈ rest := by
          rcases List.mem_cons.mp h2 with h | h
          · exact absurd h.symm hne
          · exact h
        rw [if_pos ⟨ht1, hl1⟩]
        have := countTaskLive_pos_of_mem hm2 ht2 hl2
        omega
      · rcases List.mem_cons.mp h2 with ha2 | ha2
        · subst ha2
          rw [if_pos ⟨ht2, hl2⟩]
          have := countTaskLive_pos_of_mem ha1 ht1 hl1
          omega
        · have := ih ha1 ha2
          omega

theorem countTaskLive_zero (t : Nat) (l : List JobRecord)
    (h : ∀ r, r ∈ l → isLive r.state = true → r.task_index ≠ t) :
    countTaskLive t l = 0 := by
  induction l with
  | nil => rfl
  | cons a rest ih =>
      unfold countTaskLive
      rw [if_neg, ih (fun r hm => h r (List.mem_cons_of_mem a hm))]
      rintro ⟨ht, hl⟩
      exact h a (List.mem_cons_self a rest) hl ht

theorem retryTask_tasks_noteq (cfg : Config) (acc : Ctrl) (t2 t : Nat)
    (h : t ≠ t2) : (retryTask cfg acc t2).tasks t = acc.tasks t := by
  unfold retryTask
  split
  · rfl
  · split
    · exact Function.update_noteq h _ _
    · exact Function.update_noteq h _ _

theorem pollRecord_live_not_exiting (time : Nat) (live : List (Nat × QStatus))
    (df : List Nat) (tasks : Nat → TaskState) (r : JobRecord)
    (h : isLive (pollRecord time live df tasks r).state = true) :
    exiting live r = false := by
  unfold exiting
  cases hq : qstatusOf live r.job_id with
  | some st => simp
  | none =>
      simp only [Option.isNone_none, Bool.and_true]
      by_cases hQR : r.state = .Queued ∨ r.state = .Running
      · exfalso
        rcases hQR with hs | hs <;>
        · have h2 : isLive (pollExitState df tasks r.task_index) = true := by
            simpa [pollRecord, hq, hs] using h
          rcases pollExitState_done_or_failed df tasks r.task_index with hd | hd <;>
            rw [hd] at h2 <;> simp [isLive] at h2
      · have h1 : r.state ≠ .Queued := fun hs => hQR (Or.inl hs)
        have h2 : r.state ≠ .Running := fun hs => hQR (Or.inr hs)
        simp [h1, h2]

theorem pollCtrl_tasks_no_exit (cfg : Config) (live : List (Nat × QStatus))
    (df : List Nat) (t0 : Nat) :
    ∀ (l : List JobRecord) (acc : Ctrl),
      (∀ r2, r2 ∈ l → r2.task_index = t0 → exiting live r2 = false) →
      ((pollCtrl cfg live df l acc).tasks t0 = acc.tasks t0 ∨
        ((pollCtrl cfg live df l acc).tasks t0 = .Active ∧
          acc.tasks t0 = .Submitted)) := by
  intro l
  induction l with
  | nil => intro acc h; exact Or.inl rfl
  | cons r rest ih =>
      intro acc h
      have hstep : (pollCtrlOne cfg live df r acc).tasks t0 = acc.tasks t0 ∨
          ((pollCtrlOne cfg live df r acc).tasks t0 = .Active ∧
            acc.tasks t0 = .Submitted) := by
        cases hq : qstatusOf live r.job_id with
        | none =>
            by_cases hQR : r.state = .Queued ∨ r.state = .Running
            · have hone : pollCtrlOne cfg live df r acc =
                  exitTaskC cfg df r.task_index acc := by
                unfold pollCtrlOne
                rw [hq, if_pos hQR]
              rw [hone]
              by_cases hrt : r.task_index = t0
              · exfalso
                have hx := h r (List.mem_cons_self r rest) hrt
                unfold exiting at hx
                rw [hq] at hx
                rcases hQR with hs | hs <;> simp [hs] at hx
              · exact Or.inl (exitTaskC_tasks_noteq cfg df r.task_index acc t0
                  (Ne.symm hrt))
            · have hone : pollCtrlOne cfg live df r acc = acc := by
                unfold pollCtrlOne
                rw [hq, if_neg hQR]
              rw [hone]
              exact Or.inl rfl
        | some st =>
            cases st with
            | queued =>
                have hone : pollCtrlOne cfg live df r acc = acc := by
                  unfold pollCtrlOne
                  rw [hq]
                rw [hone]
                exact Or.inl rfl
            | running =>
                by_cases hlv : isLive r.state = true
                · have hone : pollCtrlOne cfg live df r acc =
                      activate r.task_index acc := by
                    unfold pollCtrlOne
                    rw [hq, if_pos hlv]
                  rw [hone]
                  unfold activate
                  split
                  · rename_i hs
                    by_cases hrt : t0 = r.task_index
                    · subst hrt
                      exact Or.inr ⟨Function.update_same _ _ _, hs⟩
                    · exact Or.inl (Function.update_noteq hrt _ _)
                  · exact Or.inl rfl
                · have hone : pollCtrlOne cfg live df r acc = acc := by
                    unfold pollCtrlOne
                    rw [hq, if_neg hlv]
                  rw [hone]
                  exact Or.inl rfl
      have hrest := ih (pollCtrlOne cfg live df r acc)
        (fun r2 hm => h r2 (List.mem_cons_of_mem r hm))
      show (pollCtrl cfg live df rest (pollCtrlOne cfg live df r acc)).tasks t0 =
          acc.tasks t0 ∨
        ((pollCtrl cfg live df rest (pollCtrlOne cfg live df r acc)).tasks t0 =
            .Active ∧ acc.tasks t0 = .Submitted)
      rcases hrest with h1 | ⟨h1, h2⟩
      · rw [h1]
        exact hstep
      · rcases hstep with h3 | ⟨h3, h4⟩
        · rw [h3] at h2
          exact Or.inr ⟨h1, h2⟩
        · rw [h3] at h2
          exact absurd h2 (fun hx => TaskState.noConfusion hx)

theorem findJob_mem {db : List JobRecord} {j : Nat} {r : JobRecord}
    (h : findJob db j = some r) : r ∈ db := by
  induction db with
  | nil => simp [findJob] at h
  | cons a rest ih =>
      simp only [findJob] at h
      split at h
      · cases h
        exact List.mem_cons_self _ _
      · exact List.mem_cons_of_mem _ (ih h)

theorem exiting_live {live : List (Nat × QStatus)} {r : JobRecord}
    (h : exiting live r = true) : isLive r.state = true := by
  unfold exiting at h
  rcases Bool.and_eq_true_iff.mp h with ⟨ho, -⟩
  rcases Bool.or_eq_true_iff.mp ho with h2 | h2 <;>
    rw [of_decide_eq_true h2] <;> rfl

theorem Inv_stepEvent (cfg : Config) (s : RMState) (e : Event) (hInv : Inv s) :
    Inv (stepEvent cfg s e) := by
  obtain ⟨hIds, hPW, hCnt, hLive⟩ := hInv
  cases e with
  | submit t2 =>
      simp only [stepEvent, stepSubmit]
      split
      · rename_i hg
        have hzero : countTaskLive t2 s.db = 0 := by
          apply countTaskLive_zero
          intro r hm hl ht
          rcases hLive r hm hl with h2 | h2 <;> rw [ht] at h2 <;>
            rcases hg.1 with h3 | h3 <;> rw [h3] at h2 <;> exact TaskState.noConfusion h2
        refine ⟨?_, ?_, ?_, ?_⟩
        · intro r hm
          rcases List.mem_append.mp hm with h | h
          · exact Nat.lt_succ_of_lt (hIds r h)
          · rw [List.mem_singleton.mp h]
            exact Nat.lt_succ_self _
        · refine List.pairwise_append.mpr ⟨hPW, by simp, ?_⟩
          intro a ha b hb
          rw [List.mem_singleton.mp hb]
          exact Nat.ne_of_lt (hIds a ha)
        · intro t
          rw [countTaskLive_append]
          by_cases ht : t = t2
          · subst ht
            rw [hzero]
            simp [countTaskLive, isLive]
          · have hone : countTaskLive t
                [(⟨s.next_job_id, t2, .Pending, s.fcs t2, s.time⟩ : JobRecord)] = 0 := by
              simp [countTaskLive, Ne.symm ht]
            rw [hone]
            have := hCnt t
            omega
        · intro r hm hl
          rcases List.mem_append.mp hm with h | h
          · have hro := hLive r h hl
            have hne : r.task_index ≠ t2 := by
              intro ht
              rcases hro with h2 | h2 <;> rw [ht] at h2 <;>
                rcases hg.1 with h3 | h3 <;> rw [h3] at h2 <;>
                exact TaskState.noConfusion h2
            show Function.update s.tasks t2 .Submitted r.task_index = .Submitted ∨
              Function.update s.tasks t2 .Submitted r.task_index = .Active
            rw [Function.update_noteq hne]
            exact hro
          · rw [List.mem_singleton.mp h]
            show Function.update s.tasks t2 .Submitted t2 = .Submitted ∨ _
            rw [Function.update_same]
            exact Or.inl rfl
      · exact ⟨hIds, hPW, hCnt, hLive⟩
  | queuePoll live df =>
      refine ⟨?_, ?_, ?_, ?_⟩
      · intro r' hm
        rcases List.mem_map.mp hm with ⟨r, hr, heq⟩
        rw [← heq, pollRecord_job_id]
        exact hIds r hr
      · show (s.db.map (pollRecord s.time live df s.tasks)).Pairwise _
        rw [List.pairwise_map]
        apply hPW.imp
        intro a b hne
        rw [pollRecord_job_id, pollRecord_job_id]
        exact hne
      · intro t
        exact le_trans (countTaskLive_map_le (pollRecord_task_index s.time live df s.tasks)
          (pollRecord_live s.time live df s.tasks) t s.db) (hCnt t)
      · intro r' hm hl
        rcases List.mem_map.mp hm with ⟨r, hr, heq⟩
        subst heq
        have hlr : isLive r.state = true := pollRecord_live s.time live df s.tasks r hl
        have hnx : exiting live r = false :=
          pollRecord_live_not_exiting s.time live df s.tasks r hl
        rw [pollRecord_task_index]
        have hnoexit : ∀ r2, r2 ∈ s.db → r2.task_index = r.task_index →
            exiting live r2 = false := by
          intro r2 hm2 ht2
          cases hx : exiting live r2 with
          | false => rfl
          | true =>
              exfalso
              have hl2 : isLive r2.state = true := exiting_live hx
              have hne : r ≠ r2 := by
                intro heq2
                rw [← heq2] at hx
                rw [hnx] at hx
                exact Bool.false_ne_true hx
              have := two_le_countTaskLive hr hm2 hne rfl hlr ht2 hl2
              have := hCnt r.task_index
              omega
        rcases pollCtrl_tasks_no_exit cfg live df r.task_index s.db ⟨s.tasks, s.fcs⟩
            hnoexit with h1 | ⟨h1, -⟩
        · show (pollCtrl cfg live df s.db ⟨s.tasks, s.fcs⟩).tasks r.task_index =
              .Submitted ∨
            (pollCtrl cfg live df s.db ⟨s.tasks, s.fcs⟩).tasks r.task_index = .Active
          rw [h1]
          exact hLive r hr hlr
        · show (pollCtrl cfg live df s.db ⟨s.tasks, s.fcs⟩).tasks r.task_index =
              .Submitted ∨
            (pollCtrl cfg live df s.db ⟨s.tasks, s.fcs⟩).tasks r.task_index = .Active
          rw [h1]
          exact Or.inr rfl
  | logLine j line =>
      simp only [stepEvent, stepLog]
      cases hf : findJob s.db j with
      | none => exact ⟨hIds, hPW, hCnt, hLive⟩
      | some r =>
          simp only []
          split
          · rename_i hcond
            have hrmem : r ∈ s.db := findJob_mem hf
            have hrid : r.job_id = j := findJob_some_id hf
            refine ⟨?_, ?_, ?_, ?_⟩
            · intro r' hm
              rcases List.mem_map.mp hm with ⟨r2, hr2, heq⟩
              have : r'.job_id = r2.job_id := by
                rw [← heq]
                split <;> rfl
              rw [this]
              exact hIds r2 hr2
            · show (cancelJobLive j s.db).Pairwise _
              unfold cancelJobLive
              rw [List.pairwise_map]
              apply hPW.imp
              intro a b hne
              have ha : (if a.job_id = j ∧ isLive a.state = true
                  then { a with state := JobState.Cancelled } else a).job_id = a.job_id := by
                split <;> rfl
              have hb : (if b.job_id = j ∧ isLive b.state = true
                  then { b with state := JobState.Cancelled } else b).job_id = b.job_id := by
                split <;> rfl
              rw [ha, hb]
              exact hne
            · intro t
              refine le_trans (countTaskLive_map_le ?_ ?_ t s.db) (hCnt t)
              · intro rr
                split <;> rfl
              · intro rr hl
                by_cases hc : rr.job_id = j ∧ isLive rr.state = true
                · exact hc.2
                · rw [if_neg hc] at hl
                  exact hl
            · intro r' hm hl
              rcases List.mem_map.mp hm with ⟨r2, hr2, heq⟩
              have hc2 : ¬(r2.job_id = j ∧ isLive r2.state = true) := by
                intro hc
                rw [← heq] at hl
                rw [if_pos hc] at hl
                exact Bool.false_ne_true hl
              have heq2 : r' = r2 := by
                rw [← heq, if_neg hc2]
              rw [heq2] at hl ⊢
              have hl2 : isLive r2.state = true := hl
              have hne2 : r2.job_id ≠ j := fun hx => hc2 ⟨hx, hl2⟩
              have hnet : r2.task_index ≠ r.task_index := by
                intro ht
                have hner : r ≠ r2 := by
                  intro heq3
                  rw [← heq3] at hne2
                  exact hne2 hrid
                have := two_le_countTaskLive hrmem hr2 hner rfl hcond.1 ht hl2
                have := hCnt r.task_index
                omega
              show (retryTask cfg ⟨s.tasks, s.fcs⟩ r.task_index).tasks r2.task_index =
                  .Submitted ∨
                (retryTask cfg ⟨s.tasks, s.fcs⟩ r.task_index).tasks r2.task_index =
                  .Active
              rw [retryTask_tasks_noteq cfg ⟨s.tasks, s.fcs⟩ r.task_index r2.task_index
                hnet]
              exact hLive r2 hr2 hl2
          · split <;> exact ⟨hIds, hPW, hCnt, hLive⟩
  | goalEval t2 v =>
      simp only [stepEvent, stepGoal]
      split
      · refine ⟨?_, ?_, ?_, ?_⟩
        · intro r' hm
          rcases List.mem_map.mp hm with ⟨r2, hr2, heq⟩
          have : r'.job_id = r2.job_id := by
            rw [← heq]
            split <;> rfl
          rw [this]
          exact hIds r2 hr2
        · show (cancelTaskLive t2 s.db).Pairwise _
          unfold cancelTaskLive
          rw [List.pairwise_map]
          apply hPW.imp
          intro a b hne
          have ha : (if a.task_index = t2 ∧ isLive a.state = true
              then { a with state := JobState.Cancelled } else a).job_id = a.job_id := by
            split <;> rfl
          have hb : (if b.task_index = t2 ∧ isLive b.state = true
              then { b with state := JobState.Cancelled } else b).job_id = b.job_id := by
            split <;> rfl
          rw [ha, hb]
          exact hne
        · intro t
          refine le_trans (countTaskLive_map_le ?_ ?_ t s.db) (hCnt t)
          · intro rr
            split <;> rfl
          · intro rr hl
            by_cases hc : rr.task_index = t2 ∧ isLive rr.state = true
            · exact hc.2
            · rw [if_neg hc] at hl
              exact hl
        · intro r' hm hl
          rcases List.mem_map.mp hm with ⟨r2, hr2, heq⟩
          have hc2 : ¬(r2.task_index = t2 ∧ isLive r2.state = true) := by
            intro hc
            rw [← heq] at hl
            rw [if_pos hc] at hl
            exact Bool.false_ne_true hl
          have heq2 : r' = r2 := by
            rw [← heq, if_neg hc2]
          rw [heq2] at hl ⊢
          have hl2 : isLive r2.state = true := hl
          have hnet : r2.task_index ≠ t2 := fun hx => hc2 ⟨hx, hl2⟩
          show Function.update s.tasks t2 .Completed r2.task_index = .Submitted ∨
            Function.update s.tasks t2 .Completed r2.task_index = .Active
          rw [Function.update_noteq hnet]
          exact hLive r2 hr2 hl2
      · exact ⟨hIds, hPW, hCnt, hLive⟩
  | cancelRun => exact ⟨hIds, hPW, hCnt, hLive⟩

theorem revalidate_job_id (live : List (Nat × QStatus)) (r : JobRecord) :
    (revalidate live r).job_id = r.job_id := by
  unfold revalidate
  split <;> rfl

theorem revalidate_task_index (live : List (Nat × QStatus)) (r : JobRecord) :
    (revalidate live r).task_index = r.task_index := by
  unfold revalidate
  split <;> rfl

theorem revalidate_live {live : List (Nat × QStatus)} {r : JobRecord}
    (h : isLive (revalidate live r).state = true) :
    isLive r.state = true ∧ revalidate live r = r := by
  unfold revalidate at h ⊢
  split at h
  · exfalso
    exact Bool.false_ne_true h
  · rename_i hc
    rw [if_neg hc]
    exact ⟨h, rfl⟩

theorem revalidate_done_iff (live : List (Nat × QStatus)) (r : JobRecord) :
    (revalidate live r).state = .Done ↔ r.state = .Done := by
  unfold revalidate
  split
  · rename_i hc
    constructor
    · intro h
      exact absurd h (fun hx => JobState.noConfusion hx)
    · intro h
      rcases hc.1 with h2 | h2 <;> rw [h] at h2 <;> exact JobState.noConfusion h2
  · exact Iff.rfl

theorem anyDone_map_revalidate (live : List (Nat × QStatus)) (t : Nat) :
    ∀ db : List JobRecord,
      anyTask t (fun r => decide (r.state = .Done)) (db.map (revalidate live)) =
        anyTask t (fun r => decide (r.state = .Done)) db := by
  intro db
  induction db with
  | nil => rfl
  | cons a rest ih =>
      show ((decide ((revalidate live a).task_index = t) &&
          decide ((revalidate live a).state = .Done)) ||
          anyTask t (fun r => decide (r.state = .Done)) (rest.map (revalidate live))) =
        ((decide (a.task_index = t) && decide (a.state = .Done)) ||
          anyTask t (fun r => decide (r.state = .Done)) rest)
      rw [revalidate_task_index, ih,
        decide_eq_decide.mpr (revalidate_done_iff live a)]

theorem le_maxJobId_of_mem {r : JobRecord} {db : List JobRecord} (h : r ∈ db) :
    r.job_id ≤ maxJobId db := by
  induction db with
  | nil => simp at h
  | cons a rest ih =>
      unfold maxJobId
      rcases List.mem_cons.mp h with h2 | h2
      · subst h2
        exact Nat.le_max_left _ _
      · exact le_trans (ih h2) (Nat.le_max_right _ _)

theorem Inv_loadDatabase (db : List JobRecord) (live : List (Nat × QStatus))
    (hOk : DbOk db) : Inv (loadDatabase db live) := by
  obtain ⟨hPW, hCnt, hNoDL⟩ := hOk
  refine ⟨?_, ?_, ?_, ?_⟩
  · intro r' hm
    rcases List.mem_map.mp hm with ⟨r, hr, heq⟩
    rw [← heq, revalidate_job_id]
    exact Nat.lt_succ_of_le (le_maxJobId_of_mem hr)
  · show (db.map (revalidate live)).Pairwise _
    rw [List.pairwise_map]
    apply hPW.imp
    intro a b hne
    rw [revalidate_job_id, revalidate_job_id]
    exact hne
  · intro t
    exact le_trans (countTaskLive_map_le (revalidate_task_index live)
      (fun r h => (revalidate_live h).1) t db) (hCnt t)
  · intro r' hm hl
    rcases List.mem_map.mp hm with ⟨r, hr, heq⟩
    have hrl : isLive r.state = true ∧ revalidate live r = r := by
      rw [← heq] at hl
      exact revalidate_live hl
    have hanyLive : anyTask r'.task_index (fun r2 => isLive r2.state)
        (db.map (revalidate live)) = true := by
      apply (anyTask_iff _ _ _).mpr
      exact ⟨r', hm, rfl, hl⟩
    have hanyDone : anyTask r'.task_index (fun r2 => decide (r2.state = .Done))
        (db.map (revalidate live)) = false := by
      rw [anyDone_map_revalidate]
      cases hd : anyTask r'.task_index (fun r2 => decide (r2.state = .Done)) db with
      | false => rfl
      | true =>
          exfalso
          apply hNoDL r'.task_index
          refine ⟨hd, ?_⟩
          apply (anyTask_iff _ _ _).mpr
          refine ⟨r, hr, ?_, hrl.1⟩
          rw [← heq, revalidate_task_index]
    show reconstructTask (db.map (revalidate live)) r'.task_index = _ ∨ _
    unfold reconstructTask
    rw [if_neg (by rw [hanyDone]; exact Bool.false_ne_true), if_pos hanyLive]
    exact Or.inl rfl

theorem Inv_initState (g0 : Nat → Bool) : Inv (initState g0) := by
  refine ⟨?_, ?_, ?_, ?_⟩
  · intro r hm
    simp [initState] at hm
  · simp [initState]
  · intro t
    simp [initState, countTaskLive]
  · intro r hm
    simp [initState] at hm

/-- C6: the database invariant — unique `job_id`s (exactly one record per
id), at most one live (`Pending`/`Queued`/`Running`) record per `task_index`,
ids below the fresh-id counter, and live records belonging to
submitted/active tasks — holds initially and is preserved by every operation
of the control loop (admission/submit, queue-poll update, log handling with
retry, goal evaluation, cancellation), and reload of a well-formed snapshot
re-establishes it; hence a retried submission never leaves two live jobs for
one task. -/
theorem C6_database_invariant (cfg : Config) :
    (∀ g0 : Nat → Bool, Inv (initState g0)) ∧
    (∀ (s : RMState) (e : Event), Inv s → Inv (stepEvent cfg s e)) ∧
    (∀ (db : List JobRecord) (live : List (Nat × QStatus)),
      DbOk db → Inv (loadDatabase db live)) :=
  ⟨Inv_initState, Inv_stepEvent cfg, fun db live h => Inv_loadDatabase db live h⟩

/-- Witness for C6 at concrete inputs: the invariant holds after one
admission from the empty initial state, and after reloading the one-record
snapshot `[recA]` against an empty live queue. -/
theorem C6_database_invariant_witness :
    Inv (stepEvent cfgA (initState gFalse) (Event.submit 0)) ∧
    Inv (loadDatabase [recA] []) :=
  ⟨(C6_database_invariant cfgA).2.1 _ _ ((C6_database_invariant cfgA).1 gFalse),
   (C6_database_invariant cfgA).2.2 [recA] []
     (by
       refine ⟨by simp, ?_, ?_⟩
       · intro t
         simp only [countTaskLive]
         split <;> omega
       · intro t
         rintro ⟨h1, -⟩
         simp [anyTask, recA] at h1)⟩

/-! ## C7: reloading a snapshot never double-submits -/

theorem findJob_map_unique {db : List JobRecord} {r : JobRecord}
    (hPW : db.Pairwise (fun a b => a.job_id ≠ b.job_id)) (hr : r ∈ db)
    {f : JobRecord → JobRecord} (hf : ∀ x, (f x).job_id = x.job_id) :
    findJob (db.map f) r.job_id = some (f r) := by
  induction db with
  | nil => simp at hr
  | cons a rest ih =>
      rw [List.pairwise_cons] at hPW
      simp only [List.map_cons, findJob, hf a]
      rcases List.mem_cons.mp hr with h | h
      · subst h
        rw [if_pos rfl]
      · rw [if_neg (hPW.1 r h)]
        exact ih hPW.2 h

theorem loadDatabase_anyDone_false {db : List JobRecord}
    (live : List (Nat × QStatus)) {r : JobRecord}
    (hOk : DbOk db) (hr : r ∈ db) (hl : isLive r.state = true) :
    anyTask r.task_index (fun r2 => decide (r2.state = .Done))
      (db.map (revalidate live)) = false := by
  rw [anyDone_map_revalidate]
  cases hd : anyTask r.task_index (fun r2 => decide (r2.state = .Done)) db with
  | false => rfl
  | true =>
      exfalso
      apply hOk.2.2 r.task_index
      exact ⟨hd, (anyTask_iff _ _ _).mpr ⟨r, hr, rfl, hl⟩⟩

/-- C7: for every well-formed saved snapshot, reloading rebuilds the state
without submitting anything: a `Queued`/`Running` record still present in
the live scheduler queue is kept unchanged, its task is `Submitted` (so the
admission step for that task is a no-op — no double submission), while a
`Queued`/`Running` record absent from the live queue is marked `Failed` and
its task becomes a retry candidate (`Retrying`). -/
theorem C7_restart_idempotent (cfg : Config) (db : List JobRecord)
    (live : List (Nat × QStatus)) (r : JobRecord)
    (hOk : DbOk db) (hr : r ∈ db)
    (hQR : r.state = .Queued ∨ r.state = .Running) :
    ((qstatusOf live r.job_id).isNone = false →
      findJob (loadDatabase db live).db r.job_id = some r ∧
      (loadDatabase db live).tasks r.task_index = .Submitted ∧
      stepEvent cfg (loadDatabase db live) (Event.submit r.task_index) =
        loadDatabase db live) ∧
    ((qstatusOf live r.job_id).isNone = true →
      findJob (loadDatabase db live).db r.job_id = some { r with state := .Failed } ∧
      (loadDatabase db live).tasks r.task_index = .Retrying) := by
  have hl : isLive r.state = true := by
    rcases hQR with h | h <;> rw [h] <;> rfl
  constructor
  · intro hpres
    have hneq : revalidate live r = r := by
      unfold revalidate
      rw [if_neg]
      rintro ⟨-, hn⟩
      rw [hpres] at hn
      exact Bool.false_ne_true hn
    have hfind : findJob (loadDatabase db live).db r.job_id = some r := by
      show findJob (db.map (revalidate live)) r.job_id = some r
      rw [findJob_map_unique hOk.1 hr (revalidate_job_id live), hneq]
    have htasks : (loadDatabase db live).tasks r.task_index = .Submitted := by
      show reconstructTask (db.map (revalidate live)) r.task_index = .Submitted
      unfold reconstructTask
      rw [if_neg (by
        rw [loadDatabase_anyDone_false live hOk hr hl]
        exact Bool.false_ne_true)]
      rw [if_pos]
      apply (anyTask_iff _ _ _).mpr
      refine ⟨r, ?_, rfl, hl⟩
      rw [← hneq]
      exact List.mem_map_of_mem _ hr
    refine ⟨hfind, htasks, ?_⟩
    show stepSubmit cfg (loadDatabase db live) r.task_index = loadDatabase db live
    unfold stepSubmit
    rw [if_neg]
    rintro ⟨hg1, -⟩
    rcases hg1 with h | h <;> rw [htasks] at h <;> exact TaskState.noConfusion h
  · intro habs
    have hrev : revalidate live r = { r with state := .Failed } := by
      unfold revalidate
      rw [if_pos ⟨hQR, habs⟩]
    have hfind : findJob (loadDatabase db live).db r.job_id =
        some { r with state := .Failed } := by
      show findJob (db.map (revalidate live)) r.job_id = _
      rw [findJob_map_unique hOk.1 hr (revalidate_job_id live), hrev]
    refine ⟨hfind, ?_⟩
    have hanyLiveF : anyTask r.task_index (fun r2 => isLive r2.state)
        (db.map (revalidate live)) = false := by
      cases hal : anyTask r.task_index (fun r2 => isLive r2.state)
          (db.map (revalidate live)) with
      | false => rfl
      | true =>
          exfalso
          rcases (anyTask_iff _ _ _).mp hal with ⟨r2', hm2, ht2, hl2⟩
          rcases List.mem_map.mp hm2 with ⟨r2, hr2, heq2⟩
          have hrl2 : isLive r2.state = true ∧ revalidate live r2 = r2 := by
            rw [← heq2] at hl2
            exact revalidate_live hl2
          have heq3 : r2' = r2 := by
            rw [← heq2, hrl2.2]
          by_cases hsame : r2 = r
          · rw [hsame] at hrl2
            rw [hrev] at hrl2
            have : JobState.Failed = r.state := congrArg JobRecord.state hrl2.2
            rcases hQR with h | h <;> rw [h] at this <;> exact JobState.noConfusion this
          · have ht3 : r2.task_index = r.task_index := by
              rw [← heq3, ht2]
            have := two_le_countTaskLive hr2 hr hsame ht3 hrl2.1 rfl hl
            have := hOk.2.1 r.task_index
            omega
    show reconstructTask (db.map (revalidate live)) r.task_index = .Retrying
    unfold reconstructTask
    rw [if_neg (by
      rw [loadDatabase_anyDone_false live hOk hr hl]
      exact Bool.false_ne_true)]
    rw [if_neg (by
      rw [hanyLiveF]
      exact Bool.false_ne_true)]
    rw [if_pos]
    apply (anyTask_iff _ _ _).mpr
    exact ⟨revalidate live r, List.mem_map_of_mem _ hr, revalidate_task_index live r, rfl⟩

/-- Witness for C7: the single-record snapshot `[recA]` (job 0 running for
task 0) reloaded against a live queue still containing job 0 keeps the
record and blocks re-admission; reloaded against an empty live queue the
record is marked `Failed` and the task becomes `Retrying`. -/
theorem C7_restart_idempotent_witness :
    (findJob (loadDatabase [recA] [(0, QStatus.running)]).db 0 = some recA ∧
      (loadDatabase [recA] [(0, QStatus.running)]).tasks 0 = .Submitted ∧
      stepEvent cfgA (loadDatabase [recA] [(0, QStatus.running)]) (Event.submit 0) =
        loadDatabase [recA] [(0, QStatus.running)]) ∧
    (findJob (loadDatabase [recA] []).db 0 = some { recA with state := .Failed } ∧
      (loadDatabase [recA] []).tasks 0 = .Retrying) := by
  have hOk : DbOk [recA] := by
    refine ⟨by simp, ?_, ?_⟩
    · intro t
      simp only [countTaskLive]
      split <;> omega
    · intro t
      rintro ⟨h1, -⟩
      simp [anyTask, recA] at h1
  exact ⟨(C7_restart_idempotent cfgA [recA] [(0, QStatus.running)] recA hOk
      (by simp) (by right; rfl)).1 (by decide),
    (C7_restart_idempotent cfgA [recA] [] recA hOk
      (by simp) (by right; rfl)).2 (by decide)⟩

end AdaptiveScheduler
